import Mathlib

/-!
Shallow embedding of the dbuf-storage Collection / Subcollection engine
(src/dbuf-storage/src/lib.rs) over an association-list model of one sled
tree (namespace).  JSON values are modelled by the inductive `Json`;
parsing a JSON text is modelled by `canon` (serde_json maps are
key-sorted, duplicate keys keep the last occurrence), and the missing
`helper::get_json_hash` is modelled from the spec as a canonical content
hasher.
-/

/-- JSON values as parsed by serde_json, restricted to integer numerals.
Objects carry their fields as a list of key/value pairs; `canon` below
normalises them to the sorted, duplicate-free form a parsed
`serde_json::Value` map always has. -/
inductive Json where
  | null : Json
  | bool (b : Bool) : Json
  | num (n : Int) : Json
  | str (s : String) : Json
  | arr (elems : List Json) : Json
  | obj (fields : List (String × Json)) : Json

mutual

/-- Boolean structural equality on `Json` (used to derive decidable
equality, which Lean cannot derive for this nested inductive). -/
def jeq : Json → Json → Bool
  | .null, .null => true
  | .bool a, .bool b => a == b
  | .num a, .num b => a == b
  | .str a, .str b => a == b
  | .arr xs, .arr ys => jeqList xs ys
  | .obj fs, .obj gs => jeqFields fs gs
  | _, _ => false

def jeqList : List Json → List Json → Bool
  | [], [] => true
  | x :: xs, y :: ys => jeq x y && jeqList xs ys
  | _, _ => false

def jeqFields : List (String × Json) → List (String × Json) → Bool
  | [], [] => true
  | kv :: fs, lw :: gs => kv.1 == lw.1 && jeq kv.2 lw.2 && jeqFields fs gs
  | _, _ => false

end

mutual

theorem jeq_eq : (a b : Json) → jeq a b = true → a = b
  | .null, b, h => by cases b <;> simp_all [jeq]
  | .bool x, b, h => by cases b <;> simp_all [jeq]
  | .num x, b, h => by cases b <;> simp_all [jeq]
  | .str x, b, h => by cases b <;> simp_all [jeq]
  | .arr xs, .arr ys, h => congrArg Json.arr (jeqList_eq xs ys h)
  | .arr xs, .null, h => by simp [jeq] at h
  | .arr xs, .bool _, h => by simp [jeq] at h
  | .arr xs, .num _, h => by simp [jeq] at h
  | .arr xs, .str _, h => by simp [jeq] at h
  | .arr xs, .obj _, h => by simp [jeq] at h
  | .obj fs, .obj gs, h => congrArg Json.obj (jeqFields_eq fs gs h)
  | .obj fs, .null, h => by simp [jeq] at h
  | .obj fs, .bool _, h => by simp [jeq] at h
  | .obj fs, .num _, h => by simp [jeq] at h
  | .obj fs, .str _, h => by simp [jeq] at h
  | .obj fs, .arr _, h => by simp [jeq] at h

theorem jeqList_eq : (xs ys : List Json) → jeqList xs ys = true → xs = ys
  | [], [], _ => rfl
  | [], _ :: _, h => by simp [jeqList] at h
  | _ :: _, [], h => by simp [jeqList] at h
  | x :: xs, y :: ys, h => by
      have h' := h
      simp only [jeqList, Bool.and_eq_true] at h'
      rw [jeq_eq x y h'.1, jeqList_eq xs ys h'.2]

theorem jeqFields_eq :
    (fs gs : List (String × Json)) → jeqFields fs gs = true → fs = gs
  | [], [], _ => rfl
  | [], _ :: _, h => by simp [jeqFields] at h
  | _ :: _, [], h => by simp [jeqFields] at h
  | kv :: fs, lw :: gs, h => by
      have h' := h
      simp only [jeqFields, Bool.and_eq_true, beq_iff_eq] at h'
      have hk : kv = lw := Prod.ext h'.1.1 (jeq_eq kv.2 lw.2 h'.1.2)
      rw [hk, jeqFields_eq fs gs h'.2]

end

mutual

theorem jeq_refl : (a : Json) → jeq a a = true
  | .null => rfl
  | .bool b => by simp [jeq]
  | .num n => by simp [jeq]
  | .str s => by simp [jeq]
  | .arr xs => jeqList_refl xs
  | .obj fs => jeqFields_refl fs

theorem jeqList_refl : (xs : List Json) → jeqList xs xs = true
  | [] => rfl
  | x :: xs => by
      simp only [jeqList, Bool.and_eq_true]
      exact ⟨jeq_refl x, jeqList_refl xs⟩

theorem jeqFields_refl : (fs : List (String × Json)) → jeqFields fs fs = true
  | [] => rfl
  | kv :: fs => by
      simp only [jeqFields, Bool.and_eq_true, beq_iff_eq]
      exact ⟨⟨by simp, jeq_refl kv.2⟩, jeqFields_refl fs⟩

end

instance : DecidableEq Json := fun a b =>
  if h : jeq a b = true then isTrue (jeq_eq a b h)
  else isFalse (fun he => h (he ▸ jeq_refl a))

/-- Byte-order comparison of strings as lists of chars (models the key
order of a serde_json BTreeMap / sled byte order on the ASCII keys the
engine uses). -/
def charsLe : List Char → List Char → Bool
  | [], _ => true
  | _ :: _, [] => false
  | a :: as, b :: bs =>
    if a.toNat < b.toNat then true
    else if b.toNat < a.toNat then false
    else charsLe as bs

def strLe (a b : String) : Bool := charsLe a.data b.data

/-- Insert one field into a key-sorted field list (insertion sort step). -/
def insField (p : String × Json) : List (String × Json) → List (String × Json)
  | [] => [p]
  | q :: qs => if strLe p.1 q.1 then p :: q :: qs else q :: insField p qs

/-- Sort object fields by key (models BTreeMap key order). -/
def sortFields : List (String × Json) → List (String × Json)
  | [] => []
  | p :: ps => insField p (sortFields ps)

/-- Drop duplicate keys keeping the last occurrence (serde_json parse
behaviour for repeated object keys). -/
def dedupKeys : List (String × Json) → List (String × Json)
  | [] => []
  | p :: ps => if ps.any (fun kv => kv.1 == p.1) then dedupKeys ps else p :: dedupKeys ps

mutual

/-- Canonical form of a JSON value: object keys sorted and de-duplicated
recursively.  `canon v` is the `serde_json::Value` obtained by parsing
any text whose structural content is `v`. -/
def canon : Json → Json
  | .null => .null
  | .bool b => .bool b
  | .num n => .num n
  | .str s => .str s
  | .arr xs => .arr (canonList xs)
  | .obj fs => .obj (sortFields (dedupKeys (canonFields fs)))

def canonList : List Json → List Json
  | [] => []
  | x :: xs => canon x :: canonList xs

def canonFields : List (String × Json) → List (String × Json)
  | [] => []
  | kv :: fs => (kv.1, canon kv.2) :: canonFields fs

end

/-- Two JSON values are structurally equal when their canonical forms
coincide (same keys and values under any key ordering / formatting). -/
def structEq (a b : Json) : Prop := canon a = canon b

instance (a b : Json) : Decidable (structEq a b) :=
  inferInstanceAs (Decidable (canon a = canon b))

mutual

/-- Compact serialization, the model of `serde_json::to_string` applied
to a parsed value (a parsed map always iterates in sorted key order, so
on `canon`-images this is exactly serde_json output for integer-numeral
documents; control characters in strings are not modelled). -/
def ser : Json → String
  | .null => "null"
  | .bool true => "true"
  | .bool false => "false"
  | .num n => toString n
  | .str s => "\"" ++ s ++ "\""
  | .arr xs => "[" ++ serList xs ++ "]"
  | .obj fs => "\x7b" ++ serFields fs ++ "\x7d"

def serList : List Json → String
  | [] => ""
  | [x] => ser x
  | x :: xs => ser x ++ "," ++ serList xs

def serFields : List (String × Json) → String
  | [] => ""
  | [kv] => "\"" ++ kv.1 ++ "\":" ++ ser kv.2
  | kv :: fs => "\"" ++ kv.1 ++ "\":" ++ ser kv.2 ++ "," ++ serFields fs

end

/-- One hex digit character. -/
def hexDigit (k : Nat) : Char :=
  if k < 10 then Char.ofNat ('0'.toNat + k) else Char.ofNat ('a'.toNat + (k - 10))

/-- Fixed-width (6 hex digits) encoding of one character. -/
def hexChar (c : Char) : List Char :=
  [ hexDigit ((c.toNat / 16 ^ 5) % 16)
  , hexDigit ((c.toNat / 16 ^ 4) % 16)
  , hexDigit ((c.toNat / 16 ^ 3) % 16)
  , hexDigit ((c.toNat / 16 ^ 2) % 16)
  , hexDigit ((c.toNat / 16 ^ 1) % 16)
  , hexDigit (c.toNat % 16) ]

/-- Modelled from the spec: the digest step of the ContentHasher
(`helper::get_json_hash`, whose source file is not under src/).  The
spec requires a deterministic, effectively collision-free printable
digest usable as a store key and containing no underscore (sections 4.1
and 3, invariant 5).  Modelled as an injective hex encoding prefixed by
a letter; its length is always odd, so it can never coincide with a
16-character generated id. -/
def digest (t : String) : String :=
  ⟨'h' :: (t.data.map hexChar).flatten⟩

/-- Modelled from the spec: `helper::get_json_hash` (missing from src/)
applied to a JSON text, expressed at the parsed-value level.  The spec
(section 3, invariant 4 and section 9) requires the hash to be a
canonical function of the dependency JSON value, insensitive to key
order and formatting of the hashed text, so the modelled hasher
canonicalises before digesting the serialization. -/
def get_json_hash (v : Json) : String := digest (ser (canon v))

example : canon (Json.obj [("b", .num 1), ("a", .null)])
    = Json.obj [("a", .null), ("b", .num 1)] := rfl

example : get_json_hash (Json.obj [("b", .num 1), ("a", .null)])
    = get_json_hash (Json.obj [("a", .null), ("b", .num 1)]) := rfl

/-! ## The store model

One sled `Tree` (namespace) is modelled as an association list from
string keys to stored values.  Marker keys store the empty byte string
(which is not valid JSON); every other key stores a JSON text, modelled
by its parse image. -/

instance {ε α : Type} [DecidableEq ε] [DecidableEq α] : DecidableEq (Except ε α) :=
  fun a b =>
    match a, b with
    | .ok x, .ok y =>
        if h : x = y then isTrue (by rw [h]) else isFalse (by intro he; cases he; exact h rfl)
    | .error e, .error f =>
        if h : e = f then isTrue (by rw [h]) else isFalse (by intro he; cases he; exact h rfl)
    | .ok _, .error _ => isFalse (by intro he; cases he)
    | .error _, .ok _ => isFalse (by intro he; cases he)

/-- A value stored in the tree: either a JSON text (kept as its parsed
value) or the empty byte string used for marker keys. -/
inductive Stored where
  | jsonVal (v : Json) : Stored
  | raw : Stored
deriving DecidableEq

/-- One namespace (sled tree): association list from keys to values. -/
abbrev Store := List (String × Stored)

/-- `Tree::get`. -/
def sget (s : Store) (k : String) : Option Stored :=
  match s.find? (fun kv => kv.1 == k) with
  | some kv => some kv.2
  | none => none

/-- `Tree::insert` (insert or replace at a key). -/
def sput (s : Store) (k : String) (v : Stored) : Store :=
  (k, v) :: s.filter (fun kv => kv.1 != k)

/-- `Tree::remove`. -/
def sdel (s : Store) (k : String) : Store :=
  s.filter (fun kv => kv.1 != k)

/-- Prefix test on keys (byte-level `scan_prefix` membership). -/
def keyHasPre (p k : String) : Bool := p.data.isPrefixOf k.data

/-- Number of keys matched by `scan_prefix p` (the `delete_json` probe
counts matches, stopping at 2; comparing the full count with 2 is
equivalent). -/
def scanCount (s : Store) (p : String) : Nat :=
  (s.filter (fun kv => keyHasPre p kv.1)).length

/-- True when some marker key with prefix `h ++ "_"` is present. -/
def hasMarker (s : Store) (h : String) : Bool :=
  s.any (fun kv => keyHasPre (h ++ "_") kv.1)

/-- `DbError`, as in the source (dynamic message parts elided). -/
inductive DbError where
  | SerializationError (msg : String) : DbError
  | DeserializationError (msg : String) : DbError
  | NotFound : DbError
  | DatabaseError (msg : String) : DbError
  | AlreadyExists (msg : String) : DbError
  | SchemaError (msg : String) : DbError
  | SchemaValidationError (msg : String) : DbError
  | SchemaCompilationError (msg : String) : DbError
deriving DecidableEq

/-- A collection handle: the schema gate of its metadata.  A compiled
schema is modelled as a predicate on parsed values (JSON Schema draft-7
validation itself is an external black box per the spec); `none` means
no schema configured. -/
structure Collection where
  bodySchema : Option (Json → Bool)
  depsSchema : Option (Json → Bool)

/-- A collection without schemas (as built by `create_collection`). -/
def noSchema : Collection := ⟨none, none⟩

/-- `Collection::validate_body`, as a boolean gate. -/
def bodyOK (c : Collection) (v : Json) : Bool :=
  match c.bodySchema with
  | some p => p v
  | none => true

/-- `Collection::validate_dependencies`, as a boolean gate. -/
def depsOK (c : Collection) (v : Json) : Bool :=
  match c.depsSchema with
  | some p => p v
  | none => true

/-- Lookup of an object field (serde_json `Map` indexing). -/
def objGet (fs : List (String × Json)) (k : String) : Option Json :=
  match fs.find? (fun kv => kv.1 == k) with
  | some kv => some kv.2
  | none => none

/-- Membership of an object key (`Map::contains_key`). -/
def objHas (fs : List (String × Json)) (k : String) : Bool :=
  fs.any (fun kv => kv.1 == k)

/-- Index assignment `map[k] = w` for a present key: replaces the value
stored under `k`, keeping the map structure. -/
def objSet (fs : List (String × Json)) (k : String) (w : Json) :
    List (String × Json) :=
  fs.map (fun kv => if kv.1 == k then (kv.1, w) else kv)

/-- A 16-character alphanumeric token, the shape of every id produced by
`Collection::generate_id`. -/
def validId (id : String) : Prop :=
  id.length = 16 ∧ id.data.all (fun ch => ch.isAlphanum) = true

instance (id : String) : Decidable (validId id) :=
  inferInstanceAs
    (Decidable (id.length = 16 ∧ id.data.all (fun ch => ch.isAlphanum) = true))

/-- `Collection::generate_unique_id`: trying the random draws in `cands`
(at most `MAX_ATTEMPTS = 10`), return the first one not present as a
key; exhausting the attempts is a `DatabaseError`.  The random draws of
`generate_id` are passed in as the oracle list `cands`. -/
def generate_unique_id (s : Store) (cands : List String) : Except DbError String :=
  go s (cands.take 10)
where
  go (s : Store) : List String → Except DbError String
    | [] => .error (.DatabaseError "Failed to generate unique ID after 10 attempts")
    | c :: cs => if (sget s c).isSome then go s cs else .ok c

/-- The reverse-index marker key `<depsHash>_<id>`. -/
def markerKey (h id : String) : String := h ++ "_" ++ id

/-- `Collection::insert_json`.  `v` is the parse image of the input
text (`serde_json::from_str` canonicalises maps, modelled by `canon`);
the unparseable-text failure branch is outside this model.  Returns the
store after the call together with the result; every error leaves the
store unchanged, mirroring the source where all writes happen inside
the final transaction. -/
def insert_json (c : Collection) (s : Store) (cands : List String) (v : Json) :
    Store × Except DbError String :=
  match canon v with
  | .obj fs =>
    if fs.length == 2 && objHas fs "body" && objHas fs "dependencies" then
      let body := (objGet fs "body").getD .null
      let deps := (objGet fs "dependencies").getD .null
      if bodyOK c body then
        if depsOK c deps then
          let depsHash := get_json_hash deps
          match generate_unique_id s cands with
          | .error e => (s, .error e)
          | .ok id =>
            let record := Json.obj [("body", body), ("deps", .str depsHash)]
            let depsExists := (sget s depsHash).isSome
            let s1 := sput s id (.jsonVal record)
            let s2 := if depsExists then s1 else sput s1 depsHash (.jsonVal deps)
            let s3 := sput s2 (markerKey depsHash id) .raw
            (s3, .ok id)
        else (s, .error (.SchemaValidationError "Data validation failed"))
      else (s, .error (.SchemaValidationError "Data validation failed"))
    else
      (s, .error (.DeserializationError
        "Invalid JSON structure: Message must contains exactly 2 keys: body and dependencies"))
  | _ => (s, .error (.DeserializationError "Invalid JSON structure: Not an object"))

/-- `Collection::get_json`.  Returns the reconstructed
`(body, dependencies)` document as a parsed value (the source returns
its serialization). -/
def get_json (s : Store) (id : String) : Except DbError Json :=
  match sget s id with
  | none => .error .NotFound
  | some .raw => .error (.DeserializationError "Failed to deserialize storage value")
  | some (.jsonVal sv) =>
    match sv with
    | .obj fs =>
      if objHas fs "deps" && objHas fs "body" then
        let body := (objGet fs "body").getD .null
        match (objGet fs "deps").getD .null with
        | .str depsHash =>
          match sget s depsHash with
          | none => .error (.DeserializationError "Dependencies with hash not found")
          | some .raw => .error (.DeserializationError "Failed to deserialize dependencies")
          | some (.jsonVal w) => .ok (Json.obj [("body", body), ("dependencies", w)])
        | _ => .error (.DeserializationError "Invalid deps_hash format")
      else .error (.DeserializationError "Invalid storage structure: missing deps or body")
    | _ => .error (.DeserializationError "Invalid storage structure: missing deps or body")

/-- `Collection::update_json`.  `v` is the parse image of the new
document text. -/
def update_json (c : Collection) (s : Store) (id : String) (v : Json) :
    Store × Except DbError Unit :=
  match sget s id with
  | none => (s, .error .NotFound)
  | some .raw => (s, .error (.DeserializationError "Failed to deserialize old item"))
  | some (.jsonVal old) =>
    match old with
    | .obj ofs =>
      if objHas ofs "deps" && objHas ofs "body" then
        let oldBody := (objGet ofs "body").getD .null
        match (objGet ofs "deps").getD .null with
        | .str oldDepsHash =>
          match canon v with
          | .obj nfs =>
            if nfs.length == 2 && objHas nfs "body" && objHas nfs "dependencies" then
              let newBody := (objGet nfs "body").getD .null
              let newDeps := (objGet nfs "dependencies").getD .null
              if bodyOK c newBody then
                if depsOK c newDeps then
                  let newDepsHash := get_json_hash newDeps
                  let bodyChanged := ser oldBody != ser newBody
                  let depsChanged := oldDepsHash != newDepsHash
                  if !bodyChanged && !depsChanged then (s, .ok ())
                  else
                    let r1 := if bodyChanged then objSet ofs "body" newBody else ofs
                    let r2 := if depsChanged then objSet r1 "deps" (.str newDepsHash) else r1
                    let newDepsExists := (sget s newDepsHash).isSome
                    let s1 :=
                      if depsChanged then
                        let sA := sdel s (markerKey oldDepsHash id)
                        let sB := if newDepsExists then sA
                                  else sput sA newDepsHash (.jsonVal newDeps)
                        sput sB (markerKey newDepsHash id) .raw
                      else s
                    let s2 := sput s1 id (.jsonVal (.obj r2))
                    (s2, .ok ())
                else (s, .error (.SchemaValidationError "Data validation failed"))
              else (s, .error (.SchemaValidationError "Data validation failed"))
            else
              (s, .error (.DeserializationError
                "Invalid JSON structure: Message must contains exactly 2 keys: body and dependencies"))
          | _ => (s, .error (.DeserializationError "Invalid JSON structure: Not an object"))
        | _ => (s, .error (.DeserializationError "Invalid deps_hash format"))
      else
        (s, .error (.DeserializationError "Invalid storage structure: missing deps or body"))
    | _ =>
      (s, .error (.DeserializationError "Invalid storage structure: missing deps or body"))

/-- `Collection::delete_json`.  The garbage-collection branch removes
the dependency blob exactly when the probe counted at least two marker
keys with the `depsHash_` prefix, as written in the source
(`if items_cnt >= 2`). -/
def delete_json (s : Store) (id : String) : Store × Except DbError Unit :=
  match sget s id with
  | none => (s, .error .NotFound)
  | some .raw => (s, .error (.DeserializationError "Failed to deserialize item"))
  | some (.jsonVal sv) =>
    match sv with
    | .obj fs =>
      if objHas fs "deps" then
        match (objGet fs "deps").getD .null with
        | .str depsHash =>
          let cnt := scanCount s (depsHash ++ "_")
          let s1 := sdel s id
          let s2 := sdel s1 (markerKey depsHash id)
          let s3 := if 2 ≤ cnt then sdel s2 depsHash else s2
          (s3, .ok ())
        | _ => (s, .error (.DeserializationError "Invalid deps_hash format"))
      else (s, .error (.DeserializationError "Invalid storage structure: missing deps"))
    | _ => (s, .error (.DeserializationError "Invalid storage structure: missing deps"))

/-- A `Subcollection` view: the pinned dependency value (as parsed) and
its content hash. -/
structure Subcol where
  dependencies : Json
  depsHash : String

/-- `Collection::subcollection_json`.  `v` is the parse image of the
raw dependencies text; the hash is taken over that raw text by the
(spec-modelled, canonicalising) hasher.  Pre-creates the dependency
blob outside any transaction when absent. -/
def subcollection_json (s : Store) (v : Json) : Store × Subcol :=
  let depsHash := get_json_hash v
  let s' := if (sget s depsHash).isSome then s
            else sput s depsHash (.jsonVal (canon v))
  (s', { dependencies := canon v, depsHash := depsHash })

/-- `Subcollection::check_belongs_to_subcollection`. -/
def check_belongs_to_subcollection (sub : Subcol) (s : Store) (id : String) : Bool :=
  (sget s (markerKey sub.depsHash id)).isSome

/-- `Subcollection::insert_json`: wraps the body with the pinned
dependencies and delegates to `Collection::insert_json`. -/
def sub_insert_json (sub : Subcol) (c : Collection) (s : Store) (cands : List String)
    (bodyV : Json) : Store × Except DbError String :=
  insert_json c s cands (Json.obj [("body", canon bodyV), ("dependencies", sub.dependencies)])

/-- `Subcollection::get_json`: membership check, then a direct read of
the record returning only its `body` field. -/
def sub_get_json (sub : Subcol) (s : Store) (id : String) : Except DbError Json :=
  if check_belongs_to_subcollection sub s id then
    match sget s id with
    | none => .error .NotFound
    | some .raw => .error (.DeserializationError "Failed to deserialize storage value")
    | some (.jsonVal sv) =>
      match sv with
      | .obj fs =>
        if objHas fs "body" then .ok ((objGet fs "body").getD .null)
        else .error (.DeserializationError "Invalid storage structure: missing body")
      | _ => .error (.DeserializationError "Invalid storage structure: missing body")
  else .error .NotFound

/-- `Subcollection::update_json`: membership check, then a direct
rewrite of the record body (note: no schema validation and no
delegation to `Collection::update_json`).  `bodyV` is the parse image
of the new body text. -/
def sub_update_json (sub : Subcol) (s : Store) (id : String) (bodyV : Json) :
    Store × Except DbError Unit :=
  if check_belongs_to_subcollection sub s id then
    match sget s id with
    | none => (s, .error .NotFound)
    | some .raw => (s, .error (.DeserializationError "Failed to deserialize storage value"))
    | some (.jsonVal sv) =>
      match sv with
      | .obj fs =>
        if objHas fs "deps" && objHas fs "body" then
          let oldBody := (objGet fs "body").getD .null
          let newBody := canon bodyV
          let bodyChanged := ser oldBody != ser newBody
          if !bodyChanged then (s, .ok ())
          else (sput s id (.jsonVal (.obj (objSet fs "body" newBody))), .ok ())
        else (s, .error (.DeserializationError "Invalid storage structure: missing deps or body"))
      | _ => (s, .error (.DeserializationError "Invalid storage structure: missing deps or body"))
  else (s, .error .NotFound)

/-- `Subcollection::delete_json`: membership check, then delegate to
`Collection::delete`. -/
def sub_delete_json (sub : Subcol) (s : Store) (id : String) : Store × Except DbError Unit :=
  if check_belongs_to_subcollection sub s id then delete_json s id
  else (s, .error .NotFound)

/-- The behaviour claimed by the spec for `Subcollection::update_json`:
membership check, then `Collection::update_json` on the document
obtained by wrapping the new body with the pinned dependency value. -/
def spec_sub_update_json (sub : Subcol) (c : Collection) (s : Store) (id : String)
    (bodyV : Json) : Store × Except DbError Unit :=
  if check_belongs_to_subcollection sub s id then
    update_json c s id (Json.obj [("body", canon bodyV), ("dependencies", sub.dependencies)])
  else (s, .error .NotFound)

/-! ## Canonical-form predicate

`IsCanon v` says that `v` is a fixed point of `canon`: every object
level has sorted, duplicate-free keys and canonical values.  Used to
prove that `canon` is idempotent. -/

/-- Keys strictly ascending in the byte order: adjacent-free pairwise
ordering with distinctness. -/
def pairwiseKeys (fs : List (String × Json)) : Prop :=
  fs.Pairwise (fun p q => strLe p.1 q.1 = true ∧ p.1 ≠ q.1)

mutual

def IsCanon : Json → Prop
  | .null => True
  | .bool _ => True
  | .num _ => True
  | .str _ => True
  | .arr xs => IsCanonList xs
  | .obj fs => pairwiseKeys fs ∧ IsCanonFields fs

def IsCanonList : List Json → Prop
  | [] => True
  | x :: xs => IsCanon x ∧ IsCanonList xs

def IsCanonFields : List (String × Json) → Prop
  | [] => True
  | kv :: fs => IsCanon kv.2 ∧ IsCanonFields fs

end

/-! ## Order lemmas for the key comparison -/

theorem charsLe_cons {x y : Char} {xs ys : List Char} :
    charsLe (x :: xs) (y :: ys) = true ↔
      (x.toNat < y.toNat ∨ (x.toNat = y.toNat ∧ charsLe xs ys = true)) := by
  simp only [charsLe]
  by_cases h : x.toNat < y.toNat
  · simp [h]
  · by_cases h' : y.toNat < x.toNat
    · have hne : ¬ x.toNat = y.toNat := by omega
      simp [h, h', hne]
    · have heq : x.toNat = y.toNat := by omega
      simp [h, h', heq]

theorem charsLe_trans :
    ∀ a b c : List Char, charsLe a b = true → charsLe b c = true → charsLe a c = true
  | [], _, _, _, _ => by simp [charsLe]
  | _ :: _, [], _, h1, _ => by simp [charsLe] at h1
  | _ :: _, _ :: _, [], _, h2 => by simp [charsLe] at h2
  | x :: xs, y :: ys, z :: zs, h1, h2 => by
      rw [charsLe_cons] at h1 h2 ⊢
      rcases h1 with h1 | ⟨h1e, h1r⟩
      · rcases h2 with h2 | ⟨h2e, _⟩
        · exact Or.inl (Nat.lt_trans h1 h2)
        · exact Or.inl (h2e ▸ h1)
      · rcases h2 with h2 | ⟨h2e, h2r⟩
        · exact Or.inl (h1e ▸ h2)
        · exact Or.inr ⟨h1e.trans h2e, charsLe_trans xs ys zs h1r h2r⟩

theorem charsLe_total : ∀ a b : List Char, charsLe a b = true ∨ charsLe b a = true
  | [], _ => Or.inl (by simp [charsLe])
  | _ :: _, [] => Or.inr (by simp [charsLe])
  | x :: xs, y :: ys => by
      rw [charsLe_cons, charsLe_cons]
      rcases Nat.lt_trichotomy x.toNat y.toNat with h | h | h
      · exact Or.inl (Or.inl h)
      · rcases charsLe_total xs ys with hr | hr
        · exact Or.inl (Or.inr ⟨h, hr⟩)
        · exact Or.inr (Or.inr ⟨h.symm, hr⟩)
      · exact Or.inr (Or.inl h)

theorem strLe_trans {a b c : String} (h1 : strLe a b = true) (h2 : strLe b c = true) :
    strLe a c = true :=
  charsLe_trans a.data b.data c.data h1 h2

theorem strLe_total (a b : String) : strLe a b = true ∨ strLe b a = true :=
  charsLe_total a.data b.data

/-! ## Sorting and deduplication lemmas -/

theorem insField_cons_pos {p q : String × Json} {l : List (String × Json)}
    (h : strLe p.1 q.1 = true) : insField p (q :: l) = p :: q :: l := by
  simp [insField, h]

theorem insField_cons_neg {p q : String × Json} {l : List (String × Json)}
    (h : ¬ strLe p.1 q.1 = true) : insField p (q :: l) = q :: insField p l := by
  simp [insField, h]

theorem dedupKeys_cons_pos {p : String × Json} {ps : List (String × Json)}
    (h : ps.any (fun kv => kv.1 == p.1) = true) : dedupKeys (p :: ps) = dedupKeys ps := by
  simp [dedupKeys, h]

theorem dedupKeys_cons_neg {p : String × Json} {ps : List (String × Json)}
    (h : ¬ ps.any (fun kv => kv.1 == p.1) = true) :
    dedupKeys (p :: ps) = p :: dedupKeys ps := by
  simp only [dedupKeys]
  rw [if_neg h]

theorem mem_insField {q p : String × Json} :
    ∀ {l : List (String × Json)}, q ∈ insField p l → q = p ∨ q ∈ l
  | [], h => by
      rw [show insField p [] = [p] from rfl] at h
      exact Or.inl (List.mem_singleton.mp h)
  | r :: rs, h => by
      by_cases hle : strLe p.1 r.1 = true
      · rw [insField_cons_pos hle] at h
        rcases List.mem_cons.mp h with h | h
        · exact Or.inl h
        · exact Or.inr h
      · rw [insField_cons_neg hle] at h
        rcases List.mem_cons.mp h with h | h
        · exact Or.inr (List.mem_cons.mpr (Or.inl h))
        · rcases mem_insField h with h | h
          · exact Or.inl h
          · exact Or.inr (List.mem_cons_of_mem _ h)

theorem insField_perm (p : String × Json) :
    ∀ l : List (String × Json), (insField p l).Perm (p :: l)
  | [] => List.Perm.refl _
  | r :: rs => by
      by_cases hle : strLe p.1 r.1 = true
      · rw [insField_cons_pos hle]
      · rw [insField_cons_neg hle]
        exact ((insField_perm p rs).cons r).trans (List.Perm.swap p r rs)

theorem sortFields_perm : ∀ l : List (String × Json), (sortFields l).Perm l
  | [] => List.Perm.refl _
  | p :: ps => ((insField_perm p (sortFields ps)).trans
      (List.Perm.cons p (sortFields_perm ps)))

theorem mem_sortFields {q : String × Json} {l : List (String × Json)}
    (h : q ∈ sortFields l) : q ∈ l :=
  (sortFields_perm l).mem_iff.mp h

theorem mem_dedupKeys {q : String × Json} :
    ∀ {l : List (String × Json)}, q ∈ dedupKeys l → q ∈ l
  | [], h => by rw [show dedupKeys [] = [] from rfl] at h; cases h
  | p :: ps, h => by
      by_cases hd : ps.any (fun kv => kv.1 == p.1) = true
      · rw [dedupKeys_cons_pos hd] at h
        exact List.mem_cons_of_mem _ (mem_dedupKeys h)
      · rw [dedupKeys_cons_neg hd] at h
        rcases List.mem_cons.mp h with h | h
        · exact h ▸ List.mem_cons_self _ _
        · exact List.mem_cons_of_mem _ (mem_dedupKeys h)

theorem dedupKeys_distinct :
    ∀ l : List (String × Json), (dedupKeys l).Pairwise (fun p q => p.1 ≠ q.1)
  | [] => List.Pairwise.nil
  | p :: ps => by
      by_cases hd : ps.any (fun kv => kv.1 == p.1) = true
      · rw [dedupKeys_cons_pos hd]
        exact dedupKeys_distinct ps
      · rw [dedupKeys_cons_neg hd]
        refine List.Pairwise.cons ?_ (dedupKeys_distinct ps)
        intro q hq hpq
        have hq' : q ∈ ps := mem_dedupKeys hq
        exact absurd (List.any_eq_true.mpr ⟨q, hq', by simp [hpq.symm]⟩) hd

theorem insField_pairwise_le {p : String × Json} {l : List (String × Json)}
    (h : l.Pairwise (fun a b => strLe a.1 b.1 = true)) :
    (insField p l).Pairwise (fun a b => strLe a.1 b.1 = true) := by
  induction l with
  | nil => exact List.pairwise_singleton _ _
  | cons q qs ih =>
      rcases List.pairwise_cons.mp h with ⟨hq, hqs⟩
      by_cases hle : strLe p.1 q.1 = true
      · rw [insField_cons_pos hle]
        refine List.Pairwise.cons ?_ h
        intro r hr
        rcases List.mem_cons.mp hr with hr | hr
        · exact hr ▸ hle
        · exact strLe_trans hle (hq r hr)
      · rw [insField_cons_neg hle]
        refine List.Pairwise.cons ?_ (ih hqs)
        intro r hr
        rcases mem_insField hr with hr | hr
        · rcases strLe_total p.1 q.1 with ht | ht
          · exact absurd ht hle
          · exact hr ▸ ht
        · exact hq r hr

theorem sortFields_pairwise_le :
    ∀ l : List (String × Json),
      (sortFields l).Pairwise (fun a b => strLe a.1 b.1 = true)
  | [] => List.Pairwise.nil
  | _ :: ps => insField_pairwise_le (sortFields_pairwise_le ps)

theorem pairwiseKeys_canonImage (l : List (String × Json)) :
    pairwiseKeys (sortFields (dedupKeys l)) := by
  have hle := sortFields_pairwise_le (dedupKeys l)
  have hne : (sortFields (dedupKeys l)).Pairwise (fun p q => p.1 ≠ q.1) :=
    ((sortFields_perm (dedupKeys l)).pairwise_iff
      (fun hpq => Ne.symm hpq)).mpr (dedupKeys_distinct l)
  exact hle.and hne

theorem dedupKeys_eq_self {l : List (String × Json)}
    (h : l.Pairwise (fun p q => p.1 ≠ q.1)) : dedupKeys l = l := by
  induction l with
  | nil => rfl
  | cons p ps ih =>
      rcases List.pairwise_cons.mp h with ⟨hp, hps⟩
      have hd : ¬ ps.any (fun kv => kv.1 == p.1) = true := by
        intro hany
        rcases List.any_eq_true.mp hany with ⟨q, hq, hbeq⟩
        have hqe : q.1 = p.1 := by simpa using hbeq
        exact hp q hq hqe.symm
      rw [dedupKeys_cons_neg hd, ih hps]

theorem insField_eq_cons {p : String × Json} {l : List (String × Json)}
    (h : ∀ q ∈ l, strLe p.1 q.1 = true) : insField p l = p :: l := by
  cases l with
  | nil => rfl
  | cons q qs => exact insField_cons_pos (h q (List.mem_cons_self q qs))

theorem sortFields_eq_self {l : List (String × Json)}
    (h : l.Pairwise (fun a b => strLe a.1 b.1 = true)) : sortFields l = l := by
  induction l with
  | nil => rfl
  | cons p ps ih =>
      rcases List.pairwise_cons.mp h with ⟨hp, hps⟩
      simp only [sortFields]
      rw [ih hps, insField_eq_cons hp]

theorem IsCanonFields_iff {l : List (String × Json)} :
    IsCanonFields l ↔ ∀ kv ∈ l, IsCanon kv.2 := by
  induction l with
  | nil => simp [IsCanonFields]
  | cons kv fs ih => simp [IsCanonFields, ih, List.forall_mem_cons]

mutual

theorem canon_isCanon : (v : Json) → IsCanon (canon v)
  | .null => trivial
  | .bool _ => trivial
  | .num _ => trivial
  | .str _ => trivial
  | .arr xs => canonList_isCanon xs
  | .obj fs => by
      refine And.intro (pairwiseKeys_canonImage _) ?_
      refine IsCanonFields_iff.mpr ?_
      intro kv hkv
      have hkv' : kv ∈ canonFields fs := mem_dedupKeys (mem_sortFields hkv)
      exact IsCanonFields_iff.mp (canonFields_isCanon fs) kv hkv'

theorem canonList_isCanon : (xs : List Json) → IsCanonList (canonList xs)
  | [] => trivial
  | x :: xs => ⟨canon_isCanon x, canonList_isCanon xs⟩

theorem canonFields_isCanon : (fs : List (String × Json)) → IsCanonFields (canonFields fs)
  | [] => trivial
  | kv :: fs => ⟨canon_isCanon kv.2, canonFields_isCanon fs⟩

end

mutual

theorem canon_eq_self : (v : Json) → IsCanon v → canon v = v
  | .null, _ => rfl
  | .bool _, _ => rfl
  | .num _, _ => rfl
  | .str _, _ => rfl
  | .arr xs, h => congrArg Json.arr (canonList_eq_self xs h)
  | .obj fs, h => by
      have h' : pairwiseKeys fs ∧ IsCanonFields fs := h
      have h1 : fs.Pairwise (fun p q => strLe p.1 q.1 = true ∧ p.1 ≠ q.1) := h'.1
      show Json.obj (sortFields (dedupKeys (canonFields fs))) = Json.obj fs
      rw [canonFields_eq_self fs h'.2,
          dedupKeys_eq_self (List.Pairwise.imp (fun hpq => hpq.2) h1),
          sortFields_eq_self (List.Pairwise.imp (fun hpq => hpq.1) h1)]

theorem canonList_eq_self : (xs : List Json) → IsCanonList xs → canonList xs = xs
  | [], _ => rfl
  | x :: xs, h => by
      have h' : IsCanon x ∧ IsCanonList xs := h
      show canon x :: canonList xs = x :: xs
      rw [canon_eq_self x h'.1, canonList_eq_self xs h'.2]

theorem canonFields_eq_self :
    (fs : List (String × Json)) → IsCanonFields fs → canonFields fs = fs
  | [], _ => rfl
  | kv :: fs, h => by
      have h' : IsCanon kv.2 ∧ IsCanonFields fs := h
      show (kv.1, canon kv.2) :: canonFields fs = kv :: fs
      rw [canon_eq_self kv.2 h'.1, canonFields_eq_self fs h'.2]

end

/-- `canon` is idempotent: parsing the serialization of a parsed value
changes nothing. -/
theorem canon_idem (v : Json) : canon (canon v) = canon v :=
  canon_eq_self (canon v) (canon_isCanon v)

/-- Hashing a canonical form gives the same digest as hashing the raw
value: the ContentHasher is insensitive to key order and formatting. -/
theorem get_json_hash_canon (v : Json) : get_json_hash (canon v) = get_json_hash v := by
  unfold get_json_hash
  rw [canon_idem]

/-! ## Digest and key-shape lemmas

Keys of the three families never collide: generated ids are 16
alphanumeric characters, digests are odd-length and underscore-free,
marker keys always contain an underscore. -/

theorem hexChar_length (c : Char) : (hexChar c).length = 6 := rfl

theorem flatten_hexChar_length :
    ∀ l : List Char, ((l.map hexChar).flatten).length = 6 * l.length
  | [] => rfl
  | c :: cs => by
      simp only [List.map_cons, List.flatten_cons, List.length_append,
        hexChar_length, flatten_hexChar_length cs, List.length_cons]
      ring

theorem digest_data (t : String) :
    (digest t).data = 'h' :: (t.data.map hexChar).flatten := rfl

theorem digest_length (t : String) :
    (digest t).length = 1 + 6 * t.data.length := by
  have : (digest t).length = (digest t).data.length := rfl
  rw [this, digest_data, List.length_cons, flatten_hexChar_length]
  omega

theorem hexDigit_ne_underscore : ∀ k : Nat, k < 16 → hexDigit k ≠ '_' := by decide

theorem hexChar_no_underscore (c : Char) : '_' ∉ hexChar c := by
  intro h
  simp only [hexChar, List.mem_cons, List.not_mem_nil, or_false] at h
  rcases h with h | h | h | h | h | h <;>
    exact hexDigit_ne_underscore _ (Nat.mod_lt _ (by norm_num)) h.symm

theorem digest_no_underscore (t : String) : '_' ∉ (digest t).data := by
  rw [digest_data]
  intro h
  rcases List.mem_cons.mp h with h | h
  · simp at h
  · rcases List.mem_flatten.mp h with ⟨l, hl, hc⟩
    rcases List.mem_map.mp hl with ⟨c, _, rfl⟩
    exact hexChar_no_underscore c hc

theorem hash_no_underscore (v : Json) : '_' ∉ (get_json_hash v).data :=
  digest_no_underscore _

theorem hash_length_odd (v : Json) : (get_json_hash v).length % 2 = 1 := by
  show (digest (ser (canon v))).length % 2 = 1
  rw [digest_length]
  omega

theorem validId_ne_hash {id : String} (hid : validId id) (v : Json) :
    id ≠ get_json_hash v := by
  intro he
  have hodd := hash_length_odd v
  rw [← he, hid.1] at hodd
  omega

theorem validId_no_underscore {id : String} (hid : validId id) : '_' ∉ id.data := by
  intro h
  have := List.all_eq_true.mp hid.2 '_' h
  simp at this

theorem markerKey_data (h id : String) :
    (markerKey h id).data = h.data ++ '_' :: id.data := by
  show (h ++ "_" ++ id).data = _
  rw [String.data_append, String.data_append]
  have hu : ("_" : String).data = ['_'] := rfl
  rw [hu, List.append_assoc]
  rfl

theorem underscore_mem_markerKey (h id : String) : '_' ∈ (markerKey h id).data := by
  rw [markerKey_data]
  simp

theorem hash_ne_markerKey (v : Json) (h id : String) :
    get_json_hash v ≠ markerKey h id := by
  intro he
  exact hash_no_underscore v (he ▸ underscore_mem_markerKey h id)

theorem validId_ne_markerKey {i : String} (hi : validId i) (h id : String) :
    i ≠ markerKey h id := by
  intro he
  exact validId_no_underscore hi (he ▸ underscore_mem_markerKey h id)

theorem markerKey_length (h id : String) :
    (markerKey h id).length = h.length + 1 + id.length := by
  have : (markerKey h id).length = (markerKey h id).data.length := rfl
  rw [this, markerKey_data]
  simp only [List.length_append, List.length_cons]
  have h1 : h.length = h.data.length := rfl
  have h2 : id.length = id.data.length := rfl
  omega

theorem markerKey_ne_id (h id : String) : markerKey h id ≠ id := by
  intro he
  have := markerKey_length h id
  rw [he] at this
  omega

theorem markerKey_ne_hash_fst (h id : String) : markerKey h id ≠ h := by
  intro he
  have := markerKey_length h id
  rw [he] at this
  omega

theorem keyHasPre_iff {p k : String} : keyHasPre p k = true ↔ p.data <+: k.data := by
  simp [keyHasPre, List.isPrefixOf_iff_prefix]

theorem keyHasPre_marker_self (h id : String) :
    keyHasPre (h ++ "_") (markerKey h id) = true := by
  rw [keyHasPre_iff, String.data_append, markerKey_data]
  have hu : ("_" : String).data = ['_'] := rfl
  rw [hu]
  exact ⟨id.data, by simp⟩

theorem prefix_underscore_mem {a k : String}
    (hp : keyHasPre (a ++ "_") k = true) : '_' ∈ k.data := by
  rw [keyHasPre_iff, String.data_append] at hp
  have : ('_' : Char) ∈ a.data ++ "_".data := by
    have : ("_" : String).data = ['_'] := rfl
    rw [this]
    simp
  exact hp.subset this

theorem pre_marker_chars :
    ∀ a b c : List Char, '_' ∉ a → '_' ∉ b →
      (a ++ ['_']) <+: (b ++ '_' :: c) → a = b
  | [], [], _, _, _, _ => rfl
  | [], y :: b, c, _, hb, hp => by
      have hp' : ('_' :: ([] : List Char)) <+: (y :: (b ++ '_' :: c)) := by
        simpa using hp
      rcases List.cons_prefix_cons.mp hp' with ⟨hy, _⟩
      exact absurd (List.mem_cons.mpr (Or.inl hy)) hb
  | x :: a, [], c, ha, _, hp => by
      have hp' : (x :: (a ++ ['_'])) <+: ('_' :: c) := by simpa using hp
      rcases List.cons_prefix_cons.mp hp' with ⟨hy, _⟩
      exact absurd (List.mem_cons.mpr (Or.inl hy.symm)) ha
  | x :: a, y :: b, c, ha, hb, hp => by
      have hp' : (x :: (a ++ ['_'])) <+: (y :: (b ++ '_' :: c)) := by simpa using hp
      rcases List.cons_prefix_cons.mp hp' with ⟨hy, hp2⟩
      have ha' : '_' ∉ a := fun h => ha (List.mem_cons_of_mem x h)
      have hb' : '_' ∉ b := fun h => hb (List.mem_cons_of_mem y h)
      rw [hy, pre_marker_chars a b c ha' hb' hp2]

theorem prefix_marker_eq {a b id : String}
    (ha : '_' ∉ a.data) (hb : '_' ∉ b.data)
    (hp : keyHasPre (a ++ "_") (markerKey b id) = true) : a = b := by
  rw [keyHasPre_iff, String.data_append, markerKey_data] at hp
  have hu : ("_" : String).data = ['_'] := rfl
  rw [hu] at hp
  have hd := pre_marker_chars a.data b.data id.data ha hb hp
  cases a
  cases b
  exact congrArg String.mk hd

/-! ## Store lemmas -/

theorem find_filter_ne {k k' : String} (h : k' ≠ k) :
    ∀ s : Store,
      (s.filter (fun kv => kv.1 != k)).find? (fun kv => kv.1 == k')
        = s.find? (fun kv => kv.1 == k')
  | [] => rfl
  | a :: s => by
      by_cases ha : a.1 = k
      · have h2 : (a.1 == k') = false := by
          simp only [beq_eq_false_iff_ne, ne_eq]
          exact fun he => h (he.symm.trans ha)
        have hf : List.filter (fun kv => kv.1 != k) (a :: s)
            = List.filter (fun kv => kv.1 != k) s := by
          simp [List.filter_cons, ha]
        rw [hf, find_filter_ne h s]
        simp only [List.find?_cons, h2]
      · have hf : List.filter (fun kv => kv.1 != k) (a :: s)
            = a :: List.filter (fun kv => kv.1 != k) s := by
          simp [List.filter_cons, ha]
        rw [hf]
        by_cases hb : a.1 = k'
        · have h2 : (a.1 == k') = true := by simp [hb]
          simp only [List.find?_cons, h2]
        · have h2 : (a.1 == k') = false := by simp [hb]
          simp only [List.find?_cons, h2]
          exact find_filter_ne h s

theorem find_filter_eq (k : String) :
    ∀ s : Store,
      (s.filter (fun kv => kv.1 != k)).find? (fun kv => kv.1 == k) = none
  | [] => rfl
  | a :: s => by
      by_cases ha : a.1 = k
      · have hf : List.filter (fun kv => kv.1 != k) (a :: s)
            = List.filter (fun kv => kv.1 != k) s := by
          simp [List.filter_cons, ha]
        rw [hf, find_filter_eq k s]
      · have h2 : (a.1 == k) = false := by simp [ha]
        have hf : List.filter (fun kv => kv.1 != k) (a :: s)
            = a :: List.filter (fun kv => kv.1 != k) s := by
          simp [List.filter_cons, ha]
        rw [hf]
        simp only [List.find?_cons, h2]
        exact find_filter_eq k s

theorem sget_sput_eq (s : Store) (k : String) (v : Stored) :
    sget (sput s k v) k = some v := by
  simp [sget, sput, List.find?_cons]

theorem sget_sput_ne (s : Store) (k k' : String) (v : Stored) (h : k' ≠ k) :
    sget (sput s k v) k' = sget s k' := by
  have h2 : (k == k') = false := by
    simp only [beq_eq_false_iff_ne, ne_eq]
    exact fun he => h he.symm
  simp only [sget, sput, List.find?_cons, h2]
  rw [find_filter_ne h s]

theorem sget_sdel_eq (s : Store) (k : String) : sget (sdel s k) k = none := by
  simp only [sget, sdel]
  rw [find_filter_eq k s]

theorem sget_sdel_ne (s : Store) (k k' : String) (h : k' ≠ k) :
    sget (sdel s k) k' = sget s k' := by
  simp only [sget, sdel]
  rw [find_filter_ne h s]

theorem hasMarker_sput_iff {s : Store} {k h : String} {v : Stored} :
    hasMarker (sput s k v) h = true ↔
      (keyHasPre (h ++ "_") k = true ∨ hasMarker s h = true) := by
  simp only [hasMarker, sput, List.any_cons, List.any_eq_true, Bool.or_eq_true]
  constructor
  · rintro (hk | ⟨kv, hkv, hp⟩)
    · exact Or.inl hk
    · exact Or.inr ⟨kv, (List.mem_filter.mp hkv).1, hp⟩
  · rintro (hk | ⟨kv, hkv, hp⟩)
    · exact Or.inl hk
    · by_cases he : kv.1 = k
      · exact Or.inl (he ▸ hp)
      · exact Or.inr ⟨kv, List.mem_filter.mpr ⟨hkv, by simp [he]⟩, hp⟩

theorem hasMarker_sdel_mono {s : Store} {k h : String}
    (hm : hasMarker (sdel s k) h = true) : hasMarker s h = true := by
  simp only [hasMarker, sdel, List.any_eq_true] at hm ⊢
  rcases hm with ⟨kv, hkv, hp⟩
  exact ⟨kv, (List.mem_filter.mp hkv).1, hp⟩

theorem hasMarker_sdel_of {s : Store} {k h : String}
    (hk : ¬ keyHasPre (h ++ "_") k = true) (hm : hasMarker s h = true) :
    hasMarker (sdel s k) h = true := by
  simp only [hasMarker, sdel, List.any_eq_true] at hm ⊢
  rcases hm with ⟨kv, hkv, hp⟩
  refine ⟨kv, List.mem_filter.mpr ⟨hkv, ?_⟩, hp⟩
  by_cases he : kv.1 = k
  · exact absurd (he ▸ hp) hk
  · simp [he]

theorem hasMarker_mem {s : Store} {h : String} (hm : hasMarker s h = true) :
    ∃ kv ∈ s, keyHasPre (h ++ "_") kv.1 = true := by
  simpa only [hasMarker, List.any_eq_true] using hm

theorem hasMarker_of_mem {s : Store} {h : String} {kv : String × Stored}
    (hkv : kv ∈ s) (hp : keyHasPre (h ++ "_") kv.1 = true) :
    hasMarker s h = true := by
  simp only [hasMarker, List.any_eq_true]
  exact ⟨kv, hkv, hp⟩

theorem generate_unique_id_ok {s : Store} {cands : List String} {id : String}
    (h : generate_unique_id s cands = .ok id) : id ∈ cands ∧ sget s id = none := by
  have main : ∀ l : List String, generate_unique_id.go s l = .ok id →
      id ∈ l ∧ sget s id = none := by
    intro l
    induction l with
    | nil => intro hl; cases hl
    | cons c cs ih =>
        intro hl
        by_cases hc : (sget s c).isSome = true
        · rw [show generate_unique_id.go s (c :: cs)
              = generate_unique_id.go s cs by simp [generate_unique_id.go, hc]] at hl
          rcases ih hl with ⟨h1, h2⟩
          exact ⟨List.mem_cons_of_mem _ h1, h2⟩
        · rw [show generate_unique_id.go s (c :: cs) = .ok c by
              simp [generate_unique_id.go, hc]] at hl
          have hce : c = id := by injection hl
          constructor
          · exact List.mem_cons.mpr (Or.inl hce.symm)
          · rw [← hce]
            exact Option.not_isSome_iff_eq_none.mp hc
  rcases main (cands.take 10) h with ⟨h1, h2⟩
  exact ⟨List.take_subset 10 cands h1, h2⟩

/-! ## Fixtures for concrete scenarios -/

/-- A sample dependency value. -/
def depsK : Json := Json.obj [("k", .num 1)]

/-- A second, different dependency value. -/
def depsM : Json := Json.obj [("k", .num 2)]

def hashK : String := get_json_hash depsK

def idA : String := "aaaaaaaaaaaaaaaa"

def idB : String := "bbbbbbbbbbbbbbbb"

/-- A document record pointing at `hashK` with an integer body. -/
def recNum (n : Int) : Json := Json.obj [("body", .num n), ("deps", .str hashK)]

/-- Namespace holding two documents that share the dependency value
`depsK` (one blob, two markers), as produced by two inserts. -/
def storeTwoDocs : Store :=
  [ (idA, .jsonVal (recNum 10)), (idB, .jsonVal (recNum 20)),
    (hashK, .jsonVal (canon depsK)),
    (markerKey hashK idA, .raw), (markerKey hashK idB, .raw) ]

/-- Namespace holding a single document with dependency value `depsK`. -/
def storeOneDoc : Store :=
  [ (idA, .jsonVal (recNum 10)), (hashK, .jsonVal (canon depsK)),
    (markerKey hashK idA, .raw) ]

/-! ## C1 -/

/-- C1: the claim says a successful `delete_json(id)` removes the
dependency blob exactly when no other marker with the `depsHash_`
prefix remains, and keeps it when other documents still reference it.
The code (src/dbuf-storage/src/lib.rs line 665, `if items_cnt >= 2`)
does the opposite: with two documents sharing `depsK`, deleting `idA`
removes the blob while the marker of `idB` remains, so `get_json idB`
then fails with the "Dependencies with hash not found" corruption
error; with a single document, deleting it keeps the blob forever (no
marker remains).  This theorem evaluates the embedded code at that
failing input, witnessing the inverted garbage-collection condition. -/
theorem C1_delete_gc_inverted :
    (delete_json storeTwoDocs idA).2 = .ok () ∧
    sget (delete_json storeTwoDocs idA).1 hashK = none ∧
    sget (delete_json storeTwoDocs idA).1 (markerKey hashK idB) = some .raw ∧
    get_json (delete_json storeTwoDocs idA).1 idB
      = .error (.DeserializationError "Dependencies with hash not found") ∧
    (delete_json storeOneDoc idA).2 = .ok () ∧
    sget (delete_json storeOneDoc idA).1 hashK = some (.jsonVal (canon depsK)) ∧
    hasMarker (delete_json storeOneDoc idA).1 hashK = false := by
  refine ⟨?_, ?_, ?_, ?_, ?_, ?_, ?_⟩ <;> decide

/-! ## C6 -/

/-- C6: whenever `insert_json`, `update_json` or `delete_json` returns
an error, the namespace is exactly as before the call.  In the source
every write of these operations happens inside the final transaction,
which is only reached after all fallible checks; the embedding mirrors
this, and the theorem verifies that every error path returns the input
store unchanged. -/
theorem C6_failed_mutation_leaves_store_unchanged :
    (∀ c s cands v s' e, insert_json c s cands v = (s', .error e) → s' = s) ∧
    (∀ c s id v s' e, update_json c s id v = (s', .error e) → s' = s) ∧
    (∀ s id s' e, delete_json s id = (s', .error e) → s' = s) := by
  refine ⟨?_, ?_, ?_⟩
  · intro c s cands v s' e h
    unfold insert_json at h
    repeat' first
      | split at h
      | dsimp only [] at h
    all_goals injection h with h1 h2
    all_goals first
      | exact Except.noConfusion h2
      | exact h1.symm
  · intro c s id v s' e h
    unfold update_json at h
    repeat' first
      | split at h
      | dsimp only [] at h
    all_goals injection h with h1 h2
    all_goals first
      | exact Except.noConfusion h2
      | exact h1.symm
  · intro s id s' e h
    unfold delete_json at h
    repeat' first
      | split at h
      | dsimp only [] at h
    all_goals injection h with h1 h2
    all_goals first
      | exact Except.noConfusion h2
      | exact h1.symm

/-- Witness for C6: a concrete failing call (inserting a non-object)
leaves a concrete store unchanged. -/
theorem C6_witness : (insert_json noSchema storeOneDoc [] Json.null).1 = storeOneDoc :=
  C6_failed_mutation_leaves_store_unchanged.1 noSchema storeOneDoc [] Json.null
    (insert_json noSchema storeOneDoc [] Json.null).1
    (.DeserializationError "Invalid JSON structure: Not an object") (by decide)

/-! ## C2: the blob-iff-marker invariant -/

/-- The invariant claimed by the spec (section 3, invariant 3): a
dependency blob is stored at `get_json_hash d` iff at least one marker
key with that prefix exists. -/
def blobIffMarker (s : Store) : Prop :=
  ∀ d : Json,
    ((sget s (get_json_hash d)).isSome = true ↔ hasMarker s (get_json_hash d) = true)

/-- The forward half only: every referenced dependency hash has its
blob (markers never dangle). -/
def markerImpBlob (s : Store) : Prop :=
  ∀ d : Json,
    hasMarker s (get_json_hash d) = true → (sget s (get_json_hash d)).isSome = true

theorem blobIffMarker_nil : blobIffMarker [] := by
  intro d
  constructor
  · intro h
    simp [sget] at h
  · intro h
    simp [hasMarker] at h

theorem blobIffMarker_impl {s : Store} (h : blobIffMarker s) : markerImpBlob s :=
  fun d hm => (h d).mpr hm

theorem sget_some_mem {s : Store} {k : String} {w : Stored}
    (h : sget s k = some w) : (k, w) ∈ s := by
  simp only [sget] at h
  cases hf : s.find? (fun kv => kv.1 == k) with
  | none => rw [hf] at h; cases h
  | some kv =>
      rw [hf] at h
      injection h with hw
      have hmem := List.mem_of_find?_eq_some hf
      have hpred := List.find?_some hf
      have hk : kv.1 = k := by simpa using hpred
      have : (k, w) = kv := by
        rw [← hk, ← hw]
      rw [this]
      exact hmem

theorem insert_write_preserves
    (s : Store) (idg : String) (rec : Stored) (DEPS : Json)
    (hvid : validId idg) (hinv : blobIffMarker s) :
    blobIffMarker
      (sput (if (sget s (get_json_hash DEPS)).isSome = true
             then sput s idg rec
             else sput (sput s idg rec) (get_json_hash DEPS) (.jsonVal DEPS))
            (markerKey (get_json_hash DEPS) idg) .raw) := by
  intro d
  by_cases hcase : get_json_hash d = get_json_hash DEPS
  · constructor
    · intro _
      apply hasMarker_sput_iff.mpr
      left
      rw [hcase]
      exact keyHasPre_marker_self _ _
    · intro _
      rw [sget_sput_ne _ _ _ _ (hash_ne_markerKey d _ idg), hcase]
      by_cases hex : (sget s (get_json_hash DEPS)).isSome = true
      · rw [if_pos hex,
          sget_sput_ne _ _ _ _ (Ne.symm (validId_ne_hash hvid DEPS))]
        exact hex
      · rw [if_neg hex, sget_sput_eq]
        rfl
  · have h1 : sget (sput (if (sget s (get_json_hash DEPS)).isSome = true
             then sput s idg rec
             else sput (sput s idg rec) (get_json_hash DEPS) (.jsonVal DEPS))
            (markerKey (get_json_hash DEPS) idg) .raw) (get_json_hash d)
        = sget s (get_json_hash d) := by
      rw [sget_sput_ne _ _ _ _ (hash_ne_markerKey d _ idg)]
      by_cases hex : (sget s (get_json_hash DEPS)).isSome = true
      · rw [if_pos hex, sget_sput_ne _ _ _ _ (Ne.symm (validId_ne_hash hvid d))]
      · rw [if_neg hex, sget_sput_ne _ _ _ _ hcase,
          sget_sput_ne _ _ _ _ (Ne.symm (validId_ne_hash hvid d))]
    have hiff : hasMarker (sput (if (sget s (get_json_hash DEPS)).isSome = true
             then sput s idg rec
             else sput (sput s idg rec) (get_json_hash DEPS) (.jsonVal DEPS))
            (markerKey (get_json_hash DEPS) idg) .raw) (get_json_hash d) = true
        ↔ hasMarker s (get_json_hash d) = true := by
      constructor
      · intro hm
        rcases hasMarker_sput_iff.mp hm with hp | hm2
        · exact absurd
            (prefix_marker_eq (hash_no_underscore d) (hash_no_underscore DEPS) hp)
            hcase
        · by_cases hex : (sget s (get_json_hash DEPS)).isSome = true
          · rw [if_pos hex] at hm2
            rcases hasMarker_sput_iff.mp hm2 with hp | hm3
            · exact absurd (prefix_underscore_mem hp) (validId_no_underscore hvid)
            · exact hm3
          · rw [if_neg hex] at hm2
            rcases hasMarker_sput_iff.mp hm2 with hp | hm3
            · exact absurd (prefix_underscore_mem hp) (hash_no_underscore DEPS)
            · rcases hasMarker_sput_iff.mp hm3 with hp | hm4
              · exact absurd (prefix_underscore_mem hp) (validId_no_underscore hvid)
              · exact hm4
      · intro hm
        apply hasMarker_sput_iff.mpr
        right
        by_cases hex : (sget s (get_json_hash DEPS)).isSome = true
        · rw [if_pos hex]
          exact hasMarker_sput_iff.mpr (Or.inr hm)
        · rw [if_neg hex]
          exact hasMarker_sput_iff.mpr
            (Or.inr (hasMarker_sput_iff.mpr (Or.inr hm)))
    rw [h1]
    exact (hinv d).trans hiff.symm

theorem update_write_preserves
    (s : Store) (id oldH : String) (rec2 : Stored) (NEW : Json) (dc : Bool)
    (hrec : (sget s id).isSome = true)
    (hinv : markerImpBlob s) :
    markerImpBlob
      (sput (if dc = true then
               sput (if (sget s (get_json_hash NEW)).isSome = true
                     then sdel s (markerKey oldH id)
                     else sput (sdel s (markerKey oldH id)) (get_json_hash NEW)
                            (.jsonVal NEW))
                    (markerKey (get_json_hash NEW) id) .raw
             else s)
            id rec2) := by
  intro d hm
  have hmono : (sget s (get_json_hash d)).isSome = true →
      (sget (sput (if dc = true then
               sput (if (sget s (get_json_hash NEW)).isSome = true
                     then sdel s (markerKey oldH id)
                     else sput (sdel s (markerKey oldH id)) (get_json_hash NEW)
                            (.jsonVal NEW))
                    (markerKey (get_json_hash NEW) id) .raw
             else s)
            id rec2) (get_json_hash d)).isSome = true := by
    intro hb
    by_cases hid : get_json_hash d = id
    · rw [hid, sget_sput_eq]
      rfl
    · rw [sget_sput_ne _ _ _ _ hid]
      by_cases hdc : dc = true
      · rw [if_pos hdc, sget_sput_ne _ _ _ _ (hash_ne_markerKey d _ id)]
        by_cases hex : (sget s (get_json_hash NEW)).isSome = true
        · rw [if_pos hex, sget_sdel_ne _ _ _ (hash_ne_markerKey d oldH id)]
          exact hb
        · by_cases hdn : get_json_hash d = get_json_hash NEW
          · exact absurd (hdn ▸ hb) hex
          · rw [if_neg hex, sget_sput_ne _ _ _ _ hdn,
              sget_sdel_ne _ _ _ (hash_ne_markerKey d oldH id)]
            exact hb
      · rw [if_neg hdc]
        exact hb
  rcases hasMarker_sput_iff.mp hm with hp | hm1
  · rcases Option.isSome_iff_exists.mp hrec with ⟨w, hw⟩
    exact hmono (hinv d (hasMarker_of_mem (sget_some_mem hw) hp))
  · by_cases hdc : dc = true
    · rw [if_pos hdc] at hm1
      rcases hasMarker_sput_iff.mp hm1 with hp | hm2
      · have hdn : get_json_hash d = get_json_hash NEW :=
          prefix_marker_eq (hash_no_underscore d) (hash_no_underscore NEW) hp
        by_cases hid : get_json_hash d = id
        · rw [hid, sget_sput_eq]
          rfl
        · rw [sget_sput_ne _ _ _ _ hid, if_pos hdc,
            sget_sput_ne _ _ _ _ (hash_ne_markerKey d _ id)]
          by_cases hex : (sget s (get_json_hash NEW)).isSome = true
          · rw [if_pos hex, sget_sdel_ne _ _ _ (hash_ne_markerKey d oldH id), hdn]
            exact hex
          · rw [if_neg hex, hdn, sget_sput_eq]
            rfl
      · by_cases hex : (sget s (get_json_hash NEW)).isSome = true
        · rw [if_pos hex] at hm2
          exact hmono (hinv d (hasMarker_sdel_mono hm2))
        · rw [if_neg hex] at hm2
          rcases hasMarker_sput_iff.mp hm2 with hp2 | hm3
          · exact absurd (prefix_underscore_mem hp2) (hash_no_underscore NEW)
          · exact hmono (hinv d (hasMarker_sdel_mono hm3))
    · rw [if_neg hdc] at hm1
      exact hmono (hinv d hm1)

theorem subcollection_preserves_markerImpBlob (s : Store) (v : Json)
    (hinv : markerImpBlob s) : markerImpBlob (subcollection_json s v).1 := by
  unfold subcollection_json
  dsimp only []
  by_cases hex : (sget s (get_json_hash v)).isSome = true
  · rw [if_pos hex]
    exact hinv
  · rw [if_neg hex]
    intro d hm
    rcases hasMarker_sput_iff.mp hm with hp | hm2
    · exact absurd (prefix_underscore_mem hp) (hash_no_underscore v)
    · by_cases hdv : get_json_hash d = get_json_hash v
      · rw [hdv, sget_sput_eq]
        rfl
      · rw [sget_sput_ne _ _ _ _ hdv]
        exact hinv d hm2

theorem insert_write_preserves_exists
    (s : Store) (idg : String) (rec : Stored) (DEPS : Json)
    (hvid : validId idg) (hinv : blobIffMarker s)
    (hex : (sget s (get_json_hash DEPS)).isSome = true) :
    blobIffMarker
      (sput (sput s idg rec) (markerKey (get_json_hash DEPS) idg) .raw) := by
  have hh := insert_write_preserves s idg rec DEPS hvid hinv
  rw [if_pos hex] at hh
  exact hh

theorem insert_write_preserves_new
    (s : Store) (idg : String) (rec : Stored) (DEPS : Json)
    (hvid : validId idg) (hinv : blobIffMarker s)
    (hex : ¬ (sget s (get_json_hash DEPS)).isSome = true) :
    blobIffMarker
      (sput (sput (sput s idg rec) (get_json_hash DEPS) (.jsonVal DEPS))
        (markerKey (get_json_hash DEPS) idg) .raw) := by
  have hh := insert_write_preserves s idg rec DEPS hvid hinv
  rw [if_neg hex] at hh
  exact hh

theorem update_write_preserves_changed_exists
    (s : Store) (id oldH : String) (rec2 : Stored) (NEW : Json)
    (hrec : (sget s id).isSome = true) (hinv : markerImpBlob s)
    (hex : (sget s (get_json_hash NEW)).isSome = true) :
    markerImpBlob
      (sput (sput (sdel s (markerKey oldH id))
        (markerKey (get_json_hash NEW) id) .raw) id rec2) := by
  have hh := update_write_preserves s id oldH rec2 NEW true hrec hinv
  rw [if_pos rfl, if_pos hex] at hh
  exact hh

theorem update_write_preserves_changed_new
    (s : Store) (id oldH : String) (rec2 : Stored) (NEW : Json)
    (hrec : (sget s id).isSome = true) (hinv : markerImpBlob s)
    (hex : ¬ (sget s (get_json_hash NEW)).isSome = true) :
    markerImpBlob
      (sput (sput (sput (sdel s (markerKey oldH id)) (get_json_hash NEW)
          (.jsonVal NEW))
        (markerKey (get_json_hash NEW) id) .raw) id rec2) := by
  have hh := update_write_preserves s id oldH rec2 NEW true hrec hinv
  rw [if_pos rfl, if_neg hex] at hh
  exact hh

theorem update_write_preserves_unchanged
    (s : Store) (id : String) (rec2 : Stored)
    (hrec : (sget s id).isSome = true) (hinv : markerImpBlob s) :
    markerImpBlob (sput s id rec2) := by
  have hh := update_write_preserves s id "" rec2 Json.null false hrec hinv
  rw [if_neg (by simp)] at hh
  exact hh

/-- C2, amended: the spec's blob-iff-marker invariant does not hold
after every mutating operation; what the code maintains is this
conjunction. (1) A successful `insert_json` preserves the full iff
invariant. (2) `update_json` preserves only the marker-to-blob
direction: it can orphan the old blob when the dependencies change
(the spec itself notes this asymmetry in section 4.4 step 4 and
section 9). (3) `subcollection_json` also preserves only that
direction: it pre-creates a blob with no marker.  `delete_json` is
excluded: its inverted garbage-collection condition (see C1) violates
even the marker-to-blob direction. -/
theorem C2_blob_marker_invariant_amended :
    (∀ (c : Collection) (s : Store) (cands : List String) (v : Json)
        (s' : Store) (id : String), (∀ i ∈ cands, validId i) → blobIffMarker s →
        insert_json c s cands v = (s', .ok id) → blobIffMarker s') ∧
    (∀ (c : Collection) (s : Store) (id : String) (v : Json)
        (s' : Store) (r : Except DbError Unit), markerImpBlob s →
        update_json c s id v = (s', r) → markerImpBlob s') ∧
    (∀ (s : Store) (v : Json), markerImpBlob s →
        markerImpBlob (subcollection_json s v).1) := by
  refine ⟨?_, ?_, ?_⟩
  · intro c s cands v s' id hval hinv h
    unfold insert_json at h
    repeat' first
      | split at h
      | dsimp only [] at h
    all_goals injection h with h1 h2
    all_goals try exact Except.noConfusion h2
    all_goals subst h1
    · rename_i idg hgen hbok hdok hex
      exact insert_write_preserves_exists s idg _ _
        (hval idg (generate_unique_id_ok hgen).1) hinv hex
    · rename_i idg hgen hbok hdok hex
      exact insert_write_preserves_new s idg _ _
        (hval idg (generate_unique_id_ok hgen).1) hinv hex
  · intro c s id v s' r hinv h
    unfold update_json at h
    repeat' first
      | split at h
      | dsimp only [] at h
    all_goals injection h with h1 h2
    all_goals subst h1
    all_goals first
      | exact hinv
      | (refine update_write_preserves_changed_exists s _ _ _ _ ?_ hinv ?_
         · exact Option.isSome_iff_exists.mpr ⟨_, by assumption⟩
         · assumption)
      | (refine update_write_preserves_changed_new s _ _ _ _ ?_ hinv ?_
         · exact Option.isSome_iff_exists.mpr ⟨_, by assumption⟩
         · assumption)
      | (refine update_write_preserves_unchanged s _ _ ?_ hinv
         exact Option.isSome_iff_exists.mpr ⟨_, by assumption⟩)
  · intro s v hinv
    exact subcollection_preserves_markerImpBlob s v hinv

/-- A valid two-key document with dependencies `depsK`. -/
def docK : Json := Json.obj [("body", .num 7), ("dependencies", depsK)]

/-- Same dependencies, different body. -/
def docB : Json := Json.obj [("body", .num 8), ("dependencies", depsK)]

/-- C2 counterexample: after the committed `subcollection_json` setup
on an empty namespace the dependency blob for `depsK` exists while no
marker key with its prefix exists, refuting the claimed iff at that
concrete input (an `update_json` that changes a document's
dependencies away from its old hash orphans the old blob in the same
way). -/
theorem C2_counterexample :
    ¬ (((sget (subcollection_json ([] : Store) depsK).1
          (get_json_hash depsK)).isSome = true) ↔
       (hasMarker (subcollection_json ([] : Store) depsK).1
          (get_json_hash depsK) = true)) := by
  decide

/-- Witness for C2: the amended preservation statements applied at
concrete inputs (an insert into an empty namespace, an update of the
inserted document, and a subcollection setup). -/
theorem C2_witness :
    blobIffMarker (insert_json noSchema [] [idA] docK).1 ∧
    markerImpBlob (update_json noSchema (insert_json noSchema [] [idA] docK).1
      idA docB).1 ∧
    markerImpBlob (subcollection_json [] depsK).1 := by
  have h1 : blobIffMarker (insert_json noSchema [] [idA] docK).1 :=
    C2_blob_marker_invariant_amended.1 noSchema [] [idA] docK _ idA (by decide)
      blobIffMarker_nil (by decide)
  refine ⟨h1, ?_, ?_⟩
  · exact C2_blob_marker_invariant_amended.2.1 noSchema _ idA docB _
      (update_json noSchema (insert_json noSchema [] [idA] docK).1 idA docB).2
      (blobIffMarker_impl h1) rfl
  · exact C2_blob_marker_invariant_amended.2.2 [] depsK
      (blobIffMarker_impl blobIffMarker_nil)

theorem canon_two_key (b d : Json) :
    canon (Json.obj [("body", b), ("dependencies", d)])
      = Json.obj [("body", canon b), ("dependencies", canon d)] := rfl

/-- Hash determinism: structurally equal dependency values hash
identically (spec section 3, invariant 4). -/
theorem structEq_hash {d1 d2 : Json} (h : structEq d1 d2) :
    get_json_hash d1 = get_json_hash d2 := by
  unfold get_json_hash
  unfold structEq at h
  rw [h]

/-- Explicit shape of a successful `insert_json` of a well-formed
two-key document whose dependency blob already exists: only the record
and the marker are written. -/
theorem insert_two_key_exists
    (c : Collection) (s : Store) (cands : List String) (b d : Json) (idg : String)
    (hbok : bodyOK c (canon b) = true)
    (hdok : depsOK c (canon d) = true)
    (hgen : generate_unique_id s cands = .ok idg)
    (hex : (sget s (get_json_hash d)).isSome = true) :
    insert_json c s cands (Json.obj [("body", b), ("dependencies", d)])
      = (sput (sput s idg (.jsonVal (Json.obj
            [("body", canon b), ("deps", .str (get_json_hash d))])))
          (markerKey (get_json_hash d) idg) .raw, .ok idg) := by
  unfold insert_json
  rw [canon_two_key]
  split
  next fs heq =>
    injection heq with hfs
    subst hfs
    rw [if_pos (by rfl :
      (([("body", canon b), ("dependencies", canon d)]
          : List (String × Json)).length == 2
        && objHas [("body", canon b), ("dependencies", canon d)] "body"
        && objHas [("body", canon b), ("dependencies", canon d)] "dependencies")
        = true)]
    dsimp only []
    rw [show (objGet [("body", canon b), ("dependencies", canon d)] "body").getD
        Json.null = canon b from rfl]
    rw [show (objGet [("body", canon b), ("dependencies", canon d)]
        "dependencies").getD Json.null = canon d from rfl]
    rw [if_pos hbok, if_pos hdok, hgen]
    dsimp only []
    rw [get_json_hash_canon d, if_pos hex]
  next hne =>
    exact absurd rfl (hne [("body", canon b), ("dependencies", canon d)])

/-- Explicit shape of a successful `insert_json` of a well-formed
two-key document whose dependency blob is absent: record, blob and
marker are written. -/
theorem insert_two_key_new
    (c : Collection) (s : Store) (cands : List String) (b d : Json) (idg : String)
    (hbok : bodyOK c (canon b) = true)
    (hdok : depsOK c (canon d) = true)
    (hgen : generate_unique_id s cands = .ok idg)
    (hex : sget s (get_json_hash d) = none) :
    insert_json c s cands (Json.obj [("body", b), ("dependencies", d)])
      = (sput (sput (sput s idg (.jsonVal (Json.obj
            [("body", canon b), ("deps", .str (get_json_hash d))])))
            (get_json_hash d) (.jsonVal (canon d)))
          (markerKey (get_json_hash d) idg) .raw, .ok idg) := by
  unfold insert_json
  rw [canon_two_key]
  split
  next fs heq =>
    injection heq with hfs
    subst hfs
    rw [if_pos (by rfl :
      (([("body", canon b), ("dependencies", canon d)]
          : List (String × Json)).length == 2
        && objHas [("body", canon b), ("dependencies", canon d)] "body"
        && objHas [("body", canon b), ("dependencies", canon d)] "dependencies")
        = true)]
    dsimp only []
    rw [show (objGet [("body", canon b), ("dependencies", canon d)] "body").getD
        Json.null = canon b from rfl]
    rw [show (objGet [("body", canon b), ("dependencies", canon d)]
        "dependencies").getD Json.null = canon d from rfl]
    rw [if_pos hbok, if_pos hdok, hgen]
    dsimp only []
    rw [get_json_hash_canon d, if_neg (by rw [hex]; simp)]
  next hne =>
    exact absurd rfl (hne [("body", canon b), ("dependencies", canon d)])

/-! ## C3 -/

/-- C3: every path that computes a depsHash agrees on structurally
equal dependency values.  With `structEq d1 d2` (same keys and values
under any key ordering or formatting): the hashes coincide; creating a
subcollection for `d2` when the blob for `d1` is already stored writes
nothing and pins exactly that hash; inserting a document whose
dependencies are `d2` writes only the record and the marker under the
shared hash (exactly one blob remains); and inserting through the
subcollection performs the very same call as inserting the wrapped
document directly. -/
theorem C3_canonical_hash_and_dedup
    (c : Collection) (s : Store) (cands : List String) (b2 d1 d2 : Json)
    (idg : String)
    (hse : structEq d1 d2)
    (hbok : bodyOK c (canon b2) = true)
    (hdok : depsOK c (canon d2) = true)
    (hgen : generate_unique_id s cands = .ok idg)
    (hex : (sget s (get_json_hash d1)).isSome = true) :
    get_json_hash d1 = get_json_hash d2 ∧
    (subcollection_json s d2).1 = s ∧
    (subcollection_json s d2).2.depsHash = get_json_hash d1 ∧
    insert_json c s cands (Json.obj [("body", b2), ("dependencies", d2)])
      = (sput (sput s idg (.jsonVal (Json.obj
            [("body", canon b2), ("deps", .str (get_json_hash d1))])))
          (markerKey (get_json_hash d1) idg) .raw, .ok idg) ∧
    sub_insert_json (subcollection_json s d2).2 c s cands b2
      = insert_json c s cands (Json.obj [("body", b2), ("dependencies", d2)]) := by
  have hh := structEq_hash hse
  have hex2 : (sget s (get_json_hash d2)).isSome = true := hh ▸ hex
  have h4 := insert_two_key_exists c s cands b2 d2 idg hbok hdok hgen hex2
  rw [← hh] at h4
  refine ⟨hh, ?_, ?_, h4, ?_⟩
  · unfold subcollection_json
    dsimp only []
    rw [if_pos hex2]
  · show get_json_hash d2 = get_json_hash d1
    exact hh.symm
  · show insert_json c s cands
        (Json.obj [("body", canon b2), ("dependencies", canon d2)]) = _
    have hA := insert_two_key_exists c s cands (canon b2) (canon d2) idg
      (by rw [canon_idem]; exact hbok) (by rw [canon_idem]; exact hdok) hgen
      (by rw [get_json_hash_canon]; exact hex2)
    rw [hA, h4, canon_idem, get_json_hash_canon, ← hh]

/-- Two structurally equal dependency values written with different
key orders. -/
def dOrd1 : Json := Json.obj [("x", .num 1), ("y", .num 2)]

def dOrd2 : Json := Json.obj [("y", .num 2), ("x", .num 1)]

/-- A namespace already holding the blob for `dOrd1`. -/
def storeBlob : Store := [(get_json_hash dOrd1, .jsonVal (canon dOrd1))]

/-- Witness for C3 at concrete inputs: differently-ordered but
structurally equal dependencies share one hash and one blob. -/
theorem C3_witness :
    get_json_hash dOrd1 = get_json_hash dOrd2 ∧
    (subcollection_json storeBlob dOrd2).1 = storeBlob ∧
    (subcollection_json storeBlob dOrd2).2.depsHash = get_json_hash dOrd1 ∧
    insert_json noSchema storeBlob [idB]
        (Json.obj [("body", .num 5), ("dependencies", dOrd2)])
      = (sput (sput storeBlob idB (.jsonVal (Json.obj
            [("body", canon (.num 5)), ("deps", .str (get_json_hash dOrd1))])))
          (markerKey (get_json_hash dOrd1) idB) .raw, .ok idB) ∧
    sub_insert_json (subcollection_json storeBlob dOrd2).2 noSchema storeBlob
        [idB] (.num 5)
      = insert_json noSchema storeBlob [idB]
          (Json.obj [("body", .num 5), ("dependencies", dOrd2)]) :=
  C3_canonical_hash_and_dedup noSchema storeBlob [idB] (.num 5) dOrd1 dOrd2 idB
    (by decide) rfl rfl (by decide) (by decide)

theorem get_json_record (s : Store) (id H : String) (body w : Json)
    (h1 : sget s id = some (.jsonVal (Json.obj [("body", body), ("deps", .str H)])))
    (h2 : sget s H = some (.jsonVal w)) :
    get_json s id = .ok (Json.obj [("body", body), ("dependencies", w)]) := by
  simp [get_json, h1, h2, objHas, objGet]

/-! ## C5 -/

/-- C5: round-trip.  For a valid input document (a JSON object with
exactly the keys `body` and `dependencies` that passes the configured
schemas), a successful `insert_json` is followed by a successful
`get_json` returning a document whose body equals the inserted body
and whose dependencies are structurally equal to the inserted
dependencies (both up to the canonicalization that parsing performs).
The pre-existing-blob hypothesis says the content-addressed key, if
occupied, holds the (structurally identical) dependency value,
which is how every reachable store keeps it. -/
theorem C5_insert_get_roundtrip
    (c : Collection) (s : Store) (cands : List String) (b d : Json) (idg : String)
    (hvid : validId idg)
    (hbok : bodyOK c (canon b) = true)
    (hdok : depsOK c (canon d) = true)
    (hgen : generate_unique_id s cands = .ok idg)
    (hblob : sget s (get_json_hash d) = none ∨
             sget s (get_json_hash d) = some (.jsonVal (canon d))) :
    (insert_json c s cands (Json.obj [("body", b), ("dependencies", d)])).2
      = .ok idg ∧
    get_json
      (insert_json c s cands (Json.obj [("body", b), ("dependencies", d)])).1 idg
      = .ok (Json.obj [("body", canon b), ("dependencies", canon d)]) ∧
    structEq (canon b) b ∧ structEq (canon d) d := by
  have hsb : structEq (canon b) b := canon_idem b
  have hsd : structEq (canon d) d := canon_idem d
  rcases hblob with hb | hb
  · have hres := insert_two_key_new c s cands b d idg hbok hdok hgen hb
    rw [hres]
    refine ⟨rfl, ?_, hsb, hsd⟩
    apply get_json_record
    · rw [sget_sput_ne _ _ _ _ (Ne.symm (markerKey_ne_id _ _)),
        sget_sput_ne _ _ _ _ (validId_ne_hash hvid d)]
      exact sget_sput_eq _ _ _
    · rw [sget_sput_ne _ _ _ _ (Ne.symm (markerKey_ne_hash_fst _ _))]
      exact sget_sput_eq _ _ _
  · have hex : (sget s (get_json_hash d)).isSome = true := by rw [hb]; rfl
    have hres := insert_two_key_exists c s cands b d idg hbok hdok hgen hex
    rw [hres]
    refine ⟨rfl, ?_, hsb, hsd⟩
    apply get_json_record
    · rw [sget_sput_ne _ _ _ _ (Ne.symm (markerKey_ne_id _ _))]
      exact sget_sput_eq _ _ _
    · rw [sget_sput_ne _ _ _ _ (Ne.symm (markerKey_ne_hash_fst _ _)),
        sget_sput_ne _ _ _ _ (Ne.symm (validId_ne_hash hvid d))]
      exact hb

/-- Witness for C5: inserting a concrete document into an empty
namespace and reading it back. -/
theorem C5_witness :
    (insert_json noSchema [] [idA]
        (Json.obj [("body", .num 7), ("dependencies", depsK)])).2 = .ok idA ∧
    get_json (insert_json noSchema [] [idA]
        (Json.obj [("body", .num 7), ("dependencies", depsK)])).1 idA
      = .ok (Json.obj [("body", canon (.num 7)), ("dependencies", canon depsK)]) ∧
    structEq (canon (.num 7)) (.num 7) ∧ structEq (canon depsK) depsK :=
  C5_insert_get_roundtrip noSchema [] [idA] (.num 7) depsK idA (by decide)
    rfl rfl (by decide) (Or.inl rfl)

theorem objHas_of_objGet {fs : List (String × Json)} {k : String} {w : Json}
    (h : objGet fs k = some w) : objHas fs k = true := by
  simp only [objGet] at h
  cases hf : fs.find? (fun kv => kv.1 == k) with
  | none => rw [hf] at h; cases h
  | some kv =>
      simp only [objHas, List.any_eq_true]
      exact ⟨kv, List.mem_of_find?_eq_some hf,
        List.find?_some (p := fun kv : String × Json => kv.1 == k) hf⟩

theorem objGet_two_key_body (b d : Json) :
    objGet [("body", b), ("dependencies", d)] "body" = some b := rfl

theorem objGet_two_key_deps (b d : Json) :
    objGet [("body", b), ("dependencies", d)] "dependencies" = some d := rfl

theorem objHas_two_key_body (b d : Json) :
    objHas [("body", b), ("dependencies", d)] "body" = true := rfl

theorem objHas_two_key_deps (b d : Json) :
    objHas [("body", b), ("dependencies", d)] "dependencies" = true := rfl

theorem shape_two_key (b d : Json) :
    (([("body", b), ("dependencies", d)] : List (String × Json)).length == 2
      && objHas [("body", b), ("dependencies", d)] "body"
      && objHas [("body", b), ("dependencies", d)] "dependencies") = true := rfl

/-! ## C7 -/

/-- C7: idempotent no-op update.  For a stored document whose record
parses with a `deps` pointer and a `body`, updating with a document
whose body has the same canonical serialization as the stored body and
whose dependencies hash to the stored deps hash succeeds and performs
no write at all: the returned store is exactly the input store. -/
theorem C7_noop_update
    (c : Collection) (s : Store) (id : String) (v : Json)
    (ofs : List (String × Json)) (oldH : String) (nb nd : Json)
    (hrec : sget s id = some (.jsonVal (Json.obj ofs)))
    (hdeps : objGet ofs "deps" = some (.str oldH))
    (hbody : objHas ofs "body" = true)
    (hcv : canon v = Json.obj [("body", nb), ("dependencies", nd)])
    (hbok : bodyOK c nb = true) (hdok : depsOK c nd = true)
    (hserb : ser ((objGet ofs "body").getD .null) = ser nb)
    (hhash : get_json_hash nd = oldH) :
    update_json c s id v = (s, .ok ()) := by
  simp [update_json, hrec, hdeps, objHas_of_objGet hdeps, hbody, hcv, hbok, hdok,
    hserb, hhash, objGet_two_key_body, objGet_two_key_deps, shape_two_key,
    objHas_two_key_body, objHas_two_key_deps]

/-- Witness for C7: updating a stored document with an identical body
and structurally equal dependencies changes nothing. -/
theorem C7_witness :
    update_json noSchema storeTwoDocs idA
        (Json.obj [("body", .num 10), ("dependencies", Json.obj [("k", .num 1)])])
      = (storeTwoDocs, .ok ()) :=
  C7_noop_update noSchema storeTwoDocs idA _
    [("body", .num 10), ("deps", .str hashK)] hashK (.num 10) depsK
    (by decide) rfl rfl (by decide) rfl rfl rfl rfl

theorem marker_inj_left {a b i : String} (h : markerKey a i = markerKey b i) :
    a = b := by
  have hd : a.data ++ '_' :: i.data = b.data ++ '_' :: i.data := by
    rw [← markerKey_data, ← markerKey_data, h]
  have hab := List.append_cancel_right hd
  cases a
  cases b
  exact congrArg String.mk hab

theorem objGet_cons (kv : String × Json) (fs : List (String × Json)) (k : String) :
    objGet (kv :: fs) k
      = if (kv.1 == k) = true then some kv.2 else objGet fs k := by
  simp only [objGet, List.find?_cons]
  by_cases hc : (kv.1 == k) = true
  · simp [hc]
  · have hcf : (kv.1 == k) = false := by simpa using hc
    simp [hcf]

theorem objHas_objSet (fs : List (String × Json)) (k' k : String) (w : Json) :
    objHas (objSet fs k' w) k = objHas fs k := by
  induction fs with
  | nil => rfl
  | cons kv fs ih =>
      have hfst : (if (kv.1 == k') = true then (kv.1, w) else kv).1 = kv.1 := by
        by_cases hc : (kv.1 == k') = true
        · rw [if_pos hc]
        · rw [if_neg hc]
      have hcons : objSet (kv :: fs) k' w
          = (if (kv.1 == k') = true then (kv.1, w) else kv) :: objSet fs k' w := rfl
      rw [hcons]
      simp only [objHas, List.any_cons] at ih ⊢
      rw [hfst, ih]

theorem objGet_objSet_self {fs : List (String × Json)} {k : String} (w : Json)
    (h : objHas fs k = true) : objGet (objSet fs k w) k = some w := by
  induction fs with
  | nil => cases h
  | cons kv fs ih =>
      have hcons : objSet (kv :: fs) k w
          = (if (kv.1 == k) = true then (kv.1, w) else kv) :: objSet fs k w := rfl
      rw [hcons, objGet_cons]
      by_cases hk : (kv.1 == k) = true
      · rw [show (if (kv.1 == k) = true then (kv.1, w) else kv) = (kv.1, w) from
          if_pos hk]
        rw [if_pos hk]
      · rw [show (if (kv.1 == k) = true then (kv.1, w) else kv) = kv from
          if_neg hk]
        rw [if_neg hk]
        apply ih
        have hh := h
        simp only [objHas, List.any_cons, Bool.or_eq_true] at hh
        rcases hh with hh | hh
        · exact absurd hh hk
        · simpa [objHas] using hh

/-- Explicit shape of a successful `update_json` that changes the
dependencies: the old marker is removed, the new blob is written only
if absent, the new marker is written, and the rewritten record points
at the new hash. -/
theorem update_two_key_changed
    (c : Collection) (s : Store) (id : String) (v : Json)
    (ofs : List (String × Json)) (oldH : String) (nb nd : Json)
    (hrec : sget s id = some (.jsonVal (Json.obj ofs)))
    (hdeps : objGet ofs "deps" = some (.str oldH))
    (hbody : objHas ofs "body" = true)
    (hcv : canon v = Json.obj [("body", nb), ("dependencies", nd)])
    (hbok : bodyOK c nb = true) (hdok : depsOK c nd = true)
    (hhash : oldH ≠ get_json_hash nd) :
    update_json c s id v =
      (sput (sput (if (sget s (get_json_hash nd)).isSome = true
                   then sdel s (markerKey oldH id)
                   else sput (sdel s (markerKey oldH id)) (get_json_hash nd)
                          (.jsonVal nd))
              (markerKey (get_json_hash nd) id) .raw)
        id (.jsonVal (Json.obj (objSet
          (if (ser ((objGet ofs "body").getD .null) != ser nb) = true
           then objSet ofs "body" nb else ofs)
          "deps" (.str (get_json_hash nd))))), .ok ()) := by
  have hdc : (oldH != get_json_hash nd) = true := by
    simp [bne_iff_ne]
    exact hhash
  simp [update_json, hrec, hdeps, objHas_of_objGet hdeps, hbody, hcv, hbok, hdok,
    hdc, objGet_two_key_body, objGet_two_key_deps, shape_two_key,
    objHas_two_key_body, objHas_two_key_deps]

/-! ## C8 -/

/-- C8: `update_json` never removes any dependency blob.  For a
successful update that changes the dependencies of a stored document:
the operation succeeds; the old marker is removed; the new marker is
written; the new blob is written exactly when absent (and untouched
when present); the record's deps pointer is updated to the new hash;
and the key holding the old dependency blob still exists afterwards,
even if no marker references it any more. -/
theorem C8_update_keeps_old_blob
    (c : Collection) (s : Store) (id : String) (v : Json)
    (ofs : List (String × Json)) (oldH : String) (nb nd : Json)
    (hvid : validId id)
    (hrec : sget s id = some (.jsonVal (Json.obj ofs)))
    (hdeps : objGet ofs "deps" = some (.str oldH))
    (hbody : objHas ofs "body" = true)
    (hcv : canon v = Json.obj [("body", nb), ("dependencies", nd)])
    (hbok : bodyOK c nb = true) (hdok : depsOK c nd = true)
    (hhash : oldH ≠ get_json_hash nd)
    (hblob : (sget s oldH).isSome = true) :
    (update_json c s id v).2 = .ok () ∧
    sget (update_json c s id v).1 (markerKey oldH id) = none ∧
    sget (update_json c s id v).1 (markerKey (get_json_hash nd) id)
      = some .raw ∧
    (sget s (get_json_hash nd) = none →
      sget (update_json c s id v).1 (get_json_hash nd) = some (.jsonVal nd)) ∧
    ((sget s (get_json_hash nd)).isSome = true →
      sget (update_json c s id v).1 (get_json_hash nd)
        = sget s (get_json_hash nd)) ∧
    (∃ fs2, sget (update_json c s id v).1 id = some (.jsonVal (Json.obj fs2)) ∧
      objGet fs2 "deps" = some (.str (get_json_hash nd))) ∧
    (sget (update_json c s id v).1 oldH).isSome = true := by
  rw [update_two_key_changed c s id v ofs oldH nb nd
    hrec hdeps hbody hcv hbok hdok hhash]
  dsimp only []
  refine ⟨rfl, ?_, ?_, ?_, ?_, ?_, ?_⟩
  · rw [sget_sput_ne _ _ _ _ (markerKey_ne_id oldH id),
      sget_sput_ne _ _ _ _ (fun he => hhash (marker_inj_left he))]
    by_cases hex : (sget s (get_json_hash nd)).isSome = true
    · rw [if_pos hex]
      exact sget_sdel_eq _ _
    · rw [if_neg hex,
        sget_sput_ne _ _ _ _ (Ne.symm (hash_ne_markerKey nd oldH id))]
      exact sget_sdel_eq _ _
  · rw [sget_sput_ne _ _ _ _ (markerKey_ne_id _ _)]
    exact sget_sput_eq _ _ _
  · intro hnone
    have hex : ¬ (sget s (get_json_hash nd)).isSome = true := by
      rw [hnone]
      simp
    rw [sget_sput_ne _ _ _ _ (Ne.symm (validId_ne_hash hvid nd)),
      sget_sput_ne _ _ _ _ (Ne.symm (markerKey_ne_hash_fst _ _)),
      if_neg hex]
    exact sget_sput_eq _ _ _
  · intro hex
    rw [sget_sput_ne _ _ _ _ (Ne.symm (validId_ne_hash hvid nd)),
      sget_sput_ne _ _ _ _ (Ne.symm (markerKey_ne_hash_fst _ _)),
      if_pos hex]
    exact sget_sdel_ne _ _ _ (hash_ne_markerKey nd oldH id)
  · refine ⟨_, sget_sput_eq _ _ _, ?_⟩
    apply objGet_objSet_self
    by_cases hbc : (ser ((objGet ofs "body").getD .null) != ser nb) = true
    · rw [if_pos hbc, objHas_objSet]
      exact objHas_of_objGet hdeps
    · rw [if_neg hbc]
      exact objHas_of_objGet hdeps
  · by_cases h1 : oldH = id
    · rw [h1, sget_sput_eq]
      rfl
    · rw [sget_sput_ne _ _ _ _ h1]
      by_cases h2 : oldH = markerKey (get_json_hash nd) id
      · rw [h2, sget_sput_eq]
        rfl
      · rw [sget_sput_ne _ _ _ _ h2]
        by_cases hex : (sget s (get_json_hash nd)).isSome = true
        · rw [if_pos hex,
            sget_sdel_ne _ _ _ (Ne.symm (markerKey_ne_hash_fst oldH id))]
          exact hblob
        · rw [if_neg hex, sget_sput_ne _ _ _ _ hhash,
            sget_sdel_ne _ _ _ (Ne.symm (markerKey_ne_hash_fst oldH id))]
          exact hblob

/-- Witness for C8: changing the dependencies of a stored document
from `depsK` to `depsM` leaves the old blob in place. -/
theorem C8_witness :
    (update_json noSchema storeOneDoc idA
        (Json.obj [("body", .num 10), ("dependencies", depsM)])).2 = .ok () ∧
    sget (update_json noSchema storeOneDoc idA
        (Json.obj [("body", .num 10), ("dependencies", depsM)])).1
        (markerKey hashK idA) = none ∧
    sget (update_json noSchema storeOneDoc idA
        (Json.obj [("body", .num 10), ("dependencies", depsM)])).1
        (markerKey (get_json_hash depsM) idA) = some .raw ∧
    (sget storeOneDoc (get_json_hash depsM) = none →
      sget (update_json noSchema storeOneDoc idA
        (Json.obj [("body", .num 10), ("dependencies", depsM)])).1
        (get_json_hash depsM) = some (.jsonVal depsM)) ∧
    ((sget storeOneDoc (get_json_hash depsM)).isSome = true →
      sget (update_json noSchema storeOneDoc idA
        (Json.obj [("body", .num 10), ("dependencies", depsM)])).1
        (get_json_hash depsM) = sget storeOneDoc (get_json_hash depsM)) ∧
    (∃ fs2, sget (update_json noSchema storeOneDoc idA
        (Json.obj [("body", .num 10), ("dependencies", depsM)])).1 idA
        = some (.jsonVal (Json.obj fs2)) ∧
      objGet fs2 "deps" = some (.str (get_json_hash depsM))) ∧
    (sget (update_json noSchema storeOneDoc idA
        (Json.obj [("body", .num 10), ("dependencies", depsM)])).1 hashK).isSome
      = true :=
  C8_update_keeps_old_blob noSchema storeOneDoc idA _
    [("body", .num 10), ("deps", .str hashK)] hashK (.num 10) depsM
    (by decide) (by decide) rfl rfl (by decide) rfl rfl (by decide) (by decide)

/-! ## C9 -/

/-- C9: membership isolation.  For any subcollection and any id for
which no marker with the subcollection's pinned hash prefix exists,
`get_json`, `update_json` and `delete_json` on the subcollection all
fail with `NotFound` and leave the store unchanged, regardless of
whether the parent collection holds the document. -/
theorem C9_membership_isolation
    (sub : Subcol) (s : Store) (id : String)
    (hm : sget s (markerKey sub.depsHash id) = none) :
    sub_get_json sub s id = .error .NotFound ∧
    (∀ bv : Json, sub_update_json sub s id bv = (s, .error .NotFound)) ∧
    sub_delete_json sub s id = (s, .error .NotFound) := by
  have hc : check_belongs_to_subcollection sub s id = false := by
    simp [check_belongs_to_subcollection, hm]
  refine ⟨?_, ?_, ?_⟩
  · simp [sub_get_json, hc]
  · intro bv
    simp [sub_update_json, hc]
  · simp [sub_delete_json, hc]

/-- Witness for C9: a subcollection pinned to `depsM` rejects a
document that belongs to the `depsK` group, although the parent
collection reads it fine. -/
theorem C9_witness :
    sub_get_json (subcollection_json storeTwoDocs depsM).2
        (subcollection_json storeTwoDocs depsM).1 idA = .error .NotFound ∧
    (∀ bv : Json, sub_update_json (subcollection_json storeTwoDocs depsM).2
        (subcollection_json storeTwoDocs depsM).1 idA bv
      = ((subcollection_json storeTwoDocs depsM).1, .error .NotFound)) ∧
    sub_delete_json (subcollection_json storeTwoDocs depsM).2
        (subcollection_json storeTwoDocs depsM).1 idA
      = ((subcollection_json storeTwoDocs depsM).1, .error .NotFound) ∧
    get_json (subcollection_json storeTwoDocs depsM).1 idA
      = .ok (Json.obj [("body", .num 10), ("dependencies", canon depsK)]) := by
  have h := C9_membership_isolation (subcollection_json storeTwoDocs depsM).2
    (subcollection_json storeTwoDocs depsM).1 idA (by decide)
  exact ⟨h.1, h.2.1, h.2.2, by decide⟩

/-! ## C10 -/

/-- C10: the reserved `*metadata*` record is unreachable by
document-level mutation.  Generated ids are 16-character alphanumeric
tokens and can never equal the 10-character key `*metadata*`; calling
`update_json` or `delete_json` with the id `*metadata*` fails with a
`DeserializationError` at the storage-shape check (the metadata record
has no `deps` field) before any write, leaving the store unchanged. -/
theorem C10_metadata_protected :
    (∀ id : String, validId id → id ≠ "*metadata*") ∧
    (∀ (c : Collection) (s : Store) (v : Json) (mfs : List (String × Json)),
      sget s "*metadata*" = some (.jsonVal (Json.obj mfs)) →
      objHas mfs "deps" = false →
      update_json c s "*metadata*" v
        = (s, .error (.DeserializationError
            "Invalid storage structure: missing deps or body")) ∧
      delete_json s "*metadata*"
        = (s, .error (.DeserializationError
            "Invalid storage structure: missing deps"))) := by
  constructor
  · intro id hv he
    have hl := hv.1
    rw [he] at hl
    exact absurd hl (by decide)
  · intro c s v mfs hmeta hdeps
    constructor
    · simp [update_json, hmeta, hdeps]
    · simp [delete_json, hmeta, hdeps]

/-- A namespace whose only key is the reserved metadata record. -/
def storeMeta : Store :=
  [("*metadata*", .jsonVal (Json.obj [("created_at", .num 0), ("name", .str "c")]))]

/-- Witness for C10 at concrete inputs. -/
theorem C10_witness :
    idA ≠ "*metadata*" ∧
    update_json noSchema storeMeta "*metadata*" docK
      = (storeMeta, .error (.DeserializationError
          "Invalid storage structure: missing deps or body")) ∧
    delete_json storeMeta "*metadata*"
      = (storeMeta, .error (.DeserializationError
          "Invalid storage structure: missing deps")) := by
  have h2 := C10_metadata_protected.2 noSchema storeMeta docK
    [("created_at", .num 0), ("name", .str "c")] (by decide) (by decide)
  exact ⟨C10_metadata_protected.1 idA (by decide), h2.1, h2.2⟩

/-! ## C4 -/

/-- A collection whose body schema accepts only numbers. -/
def numOnly : Collection :=
  ⟨some (fun v => match v with | .num _ => true | _ => false), none⟩

/-- The subcollection view pinned at `depsK`, exactly as produced by
`subcollection_json` for that dependency value. -/
def subK : Subcol := ⟨canon depsK, hashK⟩

/-- C4 counterexample: with a body schema that accepts only numbers,
`Subcollection::update_json` happily installs the schema-violating
string body (it performs no validation at all), while the behaviour the
claim describes — membership check followed by
`Collection::update_json` on the wrapped document — rejects it with
`SchemaValidationError` and leaves the store unchanged. -/
theorem C4_counterexample :
    (sub_update_json subK storeOneDoc idA (.str "x")).2 = .ok () ∧
    (sub_update_json subK storeOneDoc idA (.str "x")).1 ≠ storeOneDoc ∧
    spec_sub_update_json subK numOnly storeOneDoc idA (.str "x")
      = (storeOneDoc, .error (.SchemaValidationError "Data validation failed")) := by
  refine ⟨?_, ?_, ?_⟩ <;> decide

/-- C4 (amended): when the collection carries no body or deps schema
and the stored record is well-formed for the subcollection (its deps
pointer is the pinned hash, it has a body, and the pinned hash is the
hash of the pinned dependency value), `Subcollection::update_json`
coincides with the claimed behaviour: membership check followed by
`Collection::update_json` on the body wrapped with the pinned
dependencies.  The claim as stated is refuted by `C4_counterexample`:
the subcollection path skips schema validation entirely. -/
theorem C4_subcollection_update_amended
    (sub : Subcol) (c : Collection) (s : Store) (id : String) (bodyV : Json)
    (ofs : List (String × Json))
    (hbs : c.bodySchema = none) (hds : c.depsSchema = none)
    (hrec : sget s id = some (.jsonVal (Json.obj ofs)))
    (hdep : objGet ofs "deps" = some (.str sub.depsHash))
    (hbody : objHas ofs "body" = true)
    (hh : sub.depsHash = get_json_hash sub.dependencies) :
    sub_update_json sub s id bodyV = spec_sub_update_json sub c s id bodyV := by
  by_cases hmem : check_belongs_to_subcollection sub s id = true
  case neg =>
    have hmf : check_belongs_to_subcollection sub s id = false := by
      simpa using hmem
    simp [sub_update_json, spec_sub_update_json, hmf]
  case pos =>
    have hbok : bodyOK c (canon bodyV) = true := by simp [bodyOK, hbs]
    have hdok : depsOK c (canon sub.dependencies) = true := by simp [depsOK, hds]
    have hcw : canon (Json.obj [("body", canon bodyV),
          ("dependencies", sub.dependencies)])
        = Json.obj [("body", canon bodyV), ("dependencies", canon sub.dependencies)] := by
      rw [canon_two_key, canon_idem]
    have hhash : get_json_hash (canon sub.dependencies) = sub.depsHash := by
      rw [get_json_hash_canon, ← hh]
    simp [sub_update_json, spec_sub_update_json, update_json, hmem,
      hrec, hdep, objHas_of_objGet hdep, hbody, hcw, hbok, hdok, hhash,
      shape_two_key, objGet_two_key_body, objGet_two_key_deps,
      objHas_two_key_body, objHas_two_key_deps]
    split
    · rfl
    · rfl

/-- Witness for the amended C4 theorem at concrete inputs: with no
schema configured, the subcollection update of `idA` in a one-document
namespace agrees with the delegating behaviour. -/
theorem C4_witness :
    sub_update_json subK storeOneDoc idA (.str "x")
      = spec_sub_update_json subK noSchema storeOneDoc idA (.str "x") :=
  C4_subcollection_update_amended subK noSchema storeOneDoc idA (.str "x")
    [("body", .num 10), ("deps", .str hashK)]
    rfl rfl (by decide) (by decide) (by decide) (by decide)
